import Mathlib

/-!
# mini-crm-go: contact validation, storage backends and the contact service

A shallow embedding of

* `internal/contact/contact.go`  (the `Contact` record, `Validate`, the GORM hooks),
* `internal/storage/memory.go`   (`MemoryStore`),
* `internal/storage/json.go`     (`JSONStore`, with `load` and `save`),
* `internal/storage/factory.go`  (`CreateStorage`, `GetSupportedTypes`),
* `internal/storage/gorm.go`     (`NewGORMStore`, `Update`, `Delete`; the database library is
  a parameter),
* `internal/contact/service.go`  (the service over a `Repository`),
* `main.go`                      (the first program: `CRM` and its menu).

Modelling conventions.

* Go strings are `String`s; the functions of package `strings` that the code calls are
  defined on the list of runes.
* Go `uint` is a natural number below `uintMod = 2 ^ 64`; `nextID++` wraps.
* `time.Time` is a natural number (`0` is the zero time); `time.Now()` is an argument `now` of
  every method that reads the clock.
* The stores hold `*contact.Contact` values, and the service writes through the pointers it
  receives. Pointers are therefore explicit: a `Heap` maps addresses to `Contact` objects, and a
  store's map holds addresses.
* A Go `map[uint]*Contact` is the list of its entries. `range` over the list visits the entries
  in list order; Go leaves that order unspecified, so statements over "every store" hold for
  every order, and traces of calls may contain `rehash` steps that permute the entries.
* A Go `error` result is `Option Error` (`none` is `nil`); a `(*Contact, error)` result is
  `Except Error Ptr`.
-/

namespace MiniCRM

deriving instance DecidableEq for Except

/-! ## Package `strings` -/

/-- Go `unicode.IsSpace`: the Latin-1 spaces and the characters with the Unicode
`White_Space` property. -/
def isSpace (c : Char) : Bool :=
  c.toNat = 0x09 || c.toNat = 0x0A || c.toNat = 0x0B || c.toNat = 0x0C || c.toNat = 0x0D ||
  c.toNat = 0x20 || c.toNat = 0x85 || c.toNat = 0xA0 || c.toNat = 0x1680 ||
  (0x2000 ≤ c.toNat && c.toNat ≤ 0x200A) ||
  c.toNat = 0x2028 || c.toNat = 0x2029 || c.toNat = 0x202F || c.toNat = 0x205F ||
  c.toNat = 0x3000

/-- Go `strings.TrimSpace`: drop leading and trailing white space. -/
def TrimSpace (s : String) : String :=
  ⟨((s.data.dropWhile isSpace).reverse.dropWhile isSpace).reverse⟩

/-- Go `strings.HasPrefix`. -/
def HasPrefix (s pre : String) : Bool :=
  pre.data.isPrefixOf s.data

/-- Go `strings.Contains`: `substr` occurs somewhere within `s`. -/
def Contains (s substr : String) : Bool :=
  s.data.tails.any (fun t => substr.data.isPrefixOf t)

/-- Lower-case mapping of one rune, on the ASCII letters (where `unicode.ToLower` adds 32);
other runes are left as they are. -/
def toLowerRune (c : Char) : Char :=
  if 'A'.toNat ≤ c.toNat ∧ c.toNat ≤ 'Z'.toNat then Char.ofNat (c.toNat + 32) else c

/-- Go `strings.ToLower`: map every rune to lower case. -/
def ToLower (s : String) : String :=
  ⟨s.data.map toLowerRune⟩

/-! ## Errors -/

/-- The errors built in `contact.go`, `service.go`, `memory.go` and `json.go`, one constructor
per message. -/
inductive Error where
  /-- Validate: "name cannot be empty" -/
  | nameEmpty
  /-- Validate: "email cannot be empty" -/
  | emailEmpty
  /-- Validate: "invalid email format" -/
  | invalidEmailFormat
  /-- Validate: "phone number must start with '06' or '07' if provided" -/
  | phonePrefix
  /-- GetByID: "there is no contact with ID %d" -/
  | noContactWithID (id : Nat)
  /-- Update, Delete, GetByEmail: "contact not found" -/
  | contactNotFound
  /-- CreateContact: "contact with this email already exists" -/
  | emailExists
  /-- UpdateContact: "another contact with this email already exists" -/
  | anotherEmailExists
  /-- The service wrapping: "contact not found: %w" -/
  | wrapNotFound (err : Error)
  /-- An error of `os.WriteFile` or `json.MarshalIndent` in `JSONStore.save`. -/
  | writeFailed
  /-- An error of `os.ReadFile` in `JSONStore.load`. -/
  | readFailed
  /-- An error of `json.Unmarshal` in `JSONStore.load`. -/
  | jsonSyntax
  /-- NewJSONStore: "failed to load JSON store: %w" -/
  | wrapLoad (err : Error)
  /-- NewGORMStore: "failed to connect to database: %w" -/
  | connectFailed
  /-- NewGORMStore: "failed to migrate database: %w" -/
  | migrateFailed
  /-- CreateStorage: "unsupported storage type: %s" -/
  | unsupportedType (storageType : String)
  /-- An error that the engine behind a repository reports for a query or a write (for
  instance a database error that `GORMStore` passes on). -/
  | engine
  /-- The error `gorm.ErrRecordNotFound` of the database library: "record not found" -/
  | recordNotFound
  deriving DecidableEq, Repr

/-- The validation errors (the spec's `ValidationError`). -/
def Error.isValidation : Error → Bool
  | .nameEmpty | .emailEmpty | .invalidEmailFormat | .phonePrefix => true
  | _ => false

/-- The not-found errors (the spec's `NotFound`): the two messages of the stores, also when
wrapped by the service. -/
def Error.isNotFound : Error → Bool
  | .noContactWithID _ | .contactNotFound => true
  | .wrapNotFound e => e.isNotFound
  | _ => false

/-! ## `contact.Contact` -/

/-- A `time.Time`; `0` is the zero value. -/
abbrev Time := Nat

/-- Modulus of Go `uint` arithmetic (64-bit platforms). -/
def uintMod : Nat := 2 ^ 64

/-- The struct `contact.Contact`. -/
structure Contact where
  ID : Nat
  Name : String
  Email : String
  Phone : String
  CreatedAt : Time
  UpdatedAt : Time
  deriving DecidableEq, Repr

/-- The zero value of `Contact`. -/
instance : Inhabited Contact := ⟨⟨0, "", "", "", 0, 0⟩⟩

/-- Method `(c *Contact) Validate()`: the first violated rule, or `none`. -/
def Contact.Validate (c : Contact) : Option Error :=
  if TrimSpace c.Name = "" then some .nameEmpty
  else if TrimSpace c.Email = "" then some .emailEmpty
  else if !Contains c.Email "@" then some .invalidEmailFormat
  else if c.Phone ≠ "" && !HasPrefix c.Phone "06" && !HasPrefix c.Phone "07" then
    some .phonePrefix
  else none

/-! ## The heap of `Contact` objects -/

/-- An address of a `Contact` object (a non-nil `*contact.Contact`). -/
abbrev Ptr := Nat

/-- The `Contact` objects of the process: `cell p` is the object at address `p`; the addresses
below `brk` have been handed out. -/
structure Heap where
  cell : Ptr → Contact
  brk : Ptr

/-- A heap with no object allocated. -/
def Heap.empty : Heap := ⟨fun _ => default, 0⟩

/-- Assignment through a pointer: `*p = c`. -/
def Heap.write (h : Heap) (p : Ptr) (c : Contact) : Heap :=
  { h with cell := Function.update h.cell p c }

/-- Allocation `&Contact{...}`: the object is placed at the next free address. -/
def Heap.new (h : Heap) (c : Contact) : Heap × Ptr :=
  ({ cell := Function.update h.cell h.brk c, brk := h.brk + 1 }, h.brk)

/-! ## Go maps `map[uint]*Contact` -/

/-- Lookup `v, exists := m[k]`. -/
def mapGet : List (Nat × Ptr) → Nat → Option Ptr
  | [], _ => none
  | (k, v) :: rest, id => if k = id then some v else mapGet rest id

/-- Assignment `m[k] = v`: replace the entry of `k`, or add one. -/
def mapSet : List (Nat × Ptr) → Nat → Ptr → List (Nat × Ptr)
  | [], id, p => [(id, p)]
  | (k, v) :: rest, id, p => if k = id then (id, p) :: rest else (k, v) :: mapSet rest id p

/-- Removal `delete(m, k)`. -/
def mapDelete (m : List (Nat × Ptr)) (id : Nat) : List (Nat × Ptr) :=
  m.filter (fun e => e.1 ≠ id)

/-- The result of a method: the heap and the receiver after the call, and the returned value. -/
structure Res (σ ρ : Type) where
  heap : Heap
  store : σ
  ret : ρ

/-! ## `storage.MemoryStore` -/

/-- The struct `MemoryStore` (the mutex is not modelled: calls are atomic). -/
structure MemoryStore where
  contacts : List (Nat × Ptr)
  nextID : Nat

/-- Constructor `NewMemoryStore()`. -/
def NewMemoryStore : MemoryStore := ⟨[], 1⟩

/-- Method `(m *MemoryStore) Create(c)`. -/
def MemoryStore.Create (now : Time) (h : Heap) (m : MemoryStore) (c : Ptr) :
    Res MemoryStore (Option Error) :=
  match (h.cell c).Validate with
  | some err => ⟨h, m, some err⟩
  | none =>
    let h1 := h.write c { h.cell c with ID := m.nextID, CreatedAt := now, UpdatedAt := now }
    ⟨h1, { contacts := mapSet m.contacts (h1.cell c).ID c, nextID := (m.nextID + 1) % uintMod },
      none⟩

/-- Method `(m *MemoryStore) GetByID(id)`. -/
def MemoryStore.GetByID (h : Heap) (m : MemoryStore) (id : Nat) :
    Res MemoryStore (Except Error Ptr) :=
  match mapGet m.contacts id with
  | none => ⟨h, m, .error (.noContactWithID id)⟩
  | some c => ⟨h, m, .ok c⟩

/-- Method `(m *MemoryStore) GetAll()`: the stored pointers, in iteration order. -/
def MemoryStore.GetAll (h : Heap) (m : MemoryStore) :
    Res MemoryStore (Except Error (List Ptr)) :=
  ⟨h, m, .ok (m.contacts.map Prod.snd)⟩

/-- Method `(m *MemoryStore) Update(c)`. -/
def MemoryStore.Update (now : Time) (h : Heap) (m : MemoryStore) (c : Ptr) :
    Res MemoryStore (Option Error) :=
  match mapGet m.contacts (h.cell c).ID with
  | none => ⟨h, m, some .contactNotFound⟩
  | some _ =>
    match (h.cell c).Validate with
    | some err => ⟨h, m, some err⟩
    | none =>
      let h1 := h.write c { h.cell c with UpdatedAt := now }
      ⟨h1, { m with contacts := mapSet m.contacts (h1.cell c).ID c }, none⟩

/-- Method `(m *MemoryStore) Delete(id)`. -/
def MemoryStore.Delete (h : Heap) (m : MemoryStore) (id : Nat) :
    Res MemoryStore (Option Error) :=
  match mapGet m.contacts id with
  | none => ⟨h, m, some .contactNotFound⟩
  | some _ => ⟨h, { m with contacts := mapDelete m.contacts id }, none⟩

/-- The loop of `GetByEmail`: the first visited entry whose contact has the e-mail. -/
def findByEmail (h : Heap) : List (Nat × Ptr) → String → Option Ptr
  | [], _ => none
  | (_, c) :: rest, email => if (h.cell c).Email = email then some c else findByEmail h rest email

/-- Method `(m *MemoryStore) GetByEmail(email)`. -/
def MemoryStore.GetByEmail (h : Heap) (m : MemoryStore) (email : String) :
    Res MemoryStore (Except Error Ptr) :=
  match findByEmail h m.contacts email with
  | some c => ⟨h, m, .ok c⟩
  | none => ⟨h, m, .error .contactNotFound⟩

/-! ## `storage.JSONStore` -/

/-- What `os.Stat`, `os.ReadFile` and `json.Unmarshal` find at a path: no file, a file that
cannot be read, a file that is not a JSON array of contacts, or an array whose entries are
contact objects or `null`. The JSON text itself is not modelled; time stamps are taken to
survive encoding and decoding. -/
inductive FileContent where
  | missing
  | unreadable
  | malformed
  | array (entries : List (Option Contact))
  deriving DecidableEq, Repr

/-- The struct `JSONStore`, with the state of the file it names: `file` is what is found at
`filename`. -/
structure JSONStore where
  filename : String
  contacts : List (Nat × Ptr)
  nextID : Nat
  file : FileContent

/-- The array of contacts that `save` encodes: every stored contact, in iteration order. -/
def JSONStore.saved (h : Heap) (j : JSONStore) : List Contact :=
  j.contacts.map (fun e => h.cell e.2)

/-- Method `(j *JSONStore) save()`: write every stored contact, in iteration order. `writeOk`
tells whether `os.WriteFile` succeeds; when it fails at opening, the file is as before. -/
def JSONStore.save (writeOk : Bool) (h : Heap) (j : JSONStore) : Res JSONStore (Option Error) :=
  if writeOk then
    ⟨h, { j with file := .array ((j.saved h).map some) }, none⟩
  else ⟨h, j, some .writeFailed⟩

/-- The decoding of a JSON array into a `[]*contact.Contact`: a new object for every contact
object of the array, a nil pointer (`none`) for every `null`. -/
def unmarshal (h : Heap) : List (Option Contact) → Heap × List (Option Ptr)
  | [] => (h, [])
  | none :: rest => ((unmarshal h rest).1, none :: (unmarshal h rest).2)
  | some c :: rest =>
    ((unmarshal (h.new c).1 rest).1, some (h.new c).2 :: (unmarshal (h.new c).1 rest).2)

/-- The loop of `load` (json.go lines 55 to 60) over the decoded pointers. Reading `c.ID`
through a nil pointer stops the process with a run-time panic: the result is `none`. -/
def JSONStore.loadLoop (h : Heap) (j : JSONStore) : List (Option Ptr) → Option JSONStore
  | [] => some j
  | none :: _ => none
  | some c :: rest =>
    JSONStore.loadLoop h
      (if (h.cell c).ID ≥ j.nextID then
        { j with contacts := mapSet j.contacts (h.cell c).ID c,
                 nextID := ((h.cell c).ID + 1) % uintMod }
      else { j with contacts := mapSet j.contacts (h.cell c).ID c })
      rest

/-- Method `(j *JSONStore) load()`, on the file `j.file`. The result is `none` when the call
panics. -/
def JSONStore.load (h : Heap) (j : JSONStore) : Option (Res JSONStore (Option Error)) :=
  match j.file with
  | .missing => some ⟨h, j, none⟩
  | .unreadable => some ⟨h, j, some .readFailed⟩
  | .malformed => some ⟨h, j, some .jsonSyntax⟩
  | .array entries =>
    match JSONStore.loadLoop (unmarshal h entries).1 j (unmarshal h entries).2 with
    | none => none
    | some j1 => some ⟨(unmarshal h entries).1, j1, none⟩

/-- Constructor `NewJSONStore(filename)`, when `disk` is what is found at `filename`. The
result is `none` when `load` panics. -/
def NewJSONStore (disk : FileContent) (h : Heap) (filename : String) :
    Option (Heap × Except Error JSONStore) :=
  match JSONStore.load h ⟨filename, [], 1, disk⟩ with
  | none => none
  | some r =>
    match r.ret with
    | some err => some (r.heap, .error (.wrapLoad err))
    | none => some (r.heap, .ok r.store)

/-- Method `(j *JSONStore) Create(c)`. -/
def JSONStore.Create (now : Time) (writeOk : Bool) (h : Heap) (j : JSONStore) (c : Ptr) :
    Res JSONStore (Option Error) :=
  match (h.cell c).Validate with
  | some err => ⟨h, j, some err⟩
  | none =>
    let h1 := h.write c { h.cell c with ID := j.nextID, CreatedAt := now, UpdatedAt := now }
    JSONStore.save writeOk h1
      { j with contacts := mapSet j.contacts (h1.cell c).ID c,
               nextID := (j.nextID + 1) % uintMod }

/-- Method `(j *JSONStore) GetByID(id)`. -/
def JSONStore.GetByID (h : Heap) (j : JSONStore) (id : Nat) :
    Res JSONStore (Except Error Ptr) :=
  match mapGet j.contacts id with
  | none => ⟨h, j, .error (.noContactWithID id)⟩
  | some c => ⟨h, j, .ok c⟩

/-- Method `(j *JSONStore) GetAll()`. -/
def JSONStore.GetAll (h : Heap) (j : JSONStore) : Res JSONStore (Except Error (List Ptr)) :=
  ⟨h, j, .ok (j.contacts.map Prod.snd)⟩

/-- Method `(j *JSONStore) Delete(id)`. -/
def JSONStore.Delete (writeOk : Bool) (h : Heap) (j : JSONStore) (id : Nat) :
    Res JSONStore (Option Error) :=
  match mapGet j.contacts id with
  | none => ⟨h, j, some .contactNotFound⟩
  | some _ => JSONStore.save writeOk h { j with contacts := mapDelete j.contacts id }

/-- Method `(j *JSONStore) GetByEmail(email)`. -/
def JSONStore.GetByEmail (h : Heap) (j : JSONStore) (email : String) :
    Res JSONStore (Except Error Ptr) :=
  match findByEmail h j.contacts email with
  | some c => ⟨h, j, .ok c⟩
  | none => ⟨h, j, .error .contactNotFound⟩

/-- Method `(j *JSONStore) Update(c)`. -/
def JSONStore.Update (now : Time) (writeOk : Bool) (h : Heap) (j : JSONStore) (c : Ptr) :
    Res JSONStore (Option Error) :=
  match mapGet j.contacts (h.cell c).ID with
  | none => ⟨h, j, some .contactNotFound⟩
  | some _ =>
    match (h.cell c).Validate with
    | some err => ⟨h, j, some err⟩
    | none =>
      let h1 := h.write c { h.cell c with UpdatedAt := now }
      JSONStore.save writeOk h1 { j with contacts := mapSet j.contacts (h1.cell c).ID c }

/-! ## `contact.Repository` and the service -/

/-- The interface `contact.Repository`: the six methods of a backend with state `σ`. A
pointer-returning method gives either a pointer or an error. -/
structure Repository (σ : Type) where
  Create : Heap → σ → Ptr → Res σ (Option Error)
  GetByID : Heap → σ → Nat → Res σ (Except Error Ptr)
  GetAll : Heap → σ → Res σ (Except Error (List Ptr))
  Update : Heap → σ → Ptr → Res σ (Option Error)
  Delete : Heap → σ → Nat → Res σ (Option Error)
  GetByEmail : Heap → σ → String → Res σ (Except Error Ptr)

/-- A `MemoryStore` as a `Repository`; `now` is what `time.Now()` returns during the call. -/
def memoryRepo (now : Time) : Repository MemoryStore where
  Create := MemoryStore.Create now
  GetByID := MemoryStore.GetByID
  GetAll := MemoryStore.GetAll
  Update := MemoryStore.Update now
  Delete := MemoryStore.Delete
  GetByEmail := MemoryStore.GetByEmail

/-- Method `(s *service) CreateContact(name, email, phone)`. -/
def service.CreateContact {σ : Type} (repo : Repository σ) (h : Heap) (s : σ)
    (name email phone : String) : Res σ (Except Error Ptr) :=
  let r1 := repo.GetByEmail h s email
  match r1.ret with
  | .ok _ => ⟨r1.heap, r1.store, .error .emailExists⟩
  | .error _ =>
    let a := r1.heap.new ⟨0, name, email, phone, 0, 0⟩
    let r2 := repo.Create a.1 r1.store a.2
    match r2.ret with
    | some err => ⟨r2.heap, r2.store, .error err⟩
    | none => ⟨r2.heap, r2.store, .ok a.2⟩

/-- The e-mail check of `UpdateContact` (service.go lines 66 to 71): `true` when the call
returns the conflict error. -/
def emailConflict {σ : Type} (repo : Repository σ) (h : Heap) (s : σ) (contact : Ptr)
    (id : Nat) (email : String) : Res σ Bool :=
  if email ≠ (h.cell contact).Email then
    let r := repo.GetByEmail h s email
    match r.ret with
    | .ok existing => ⟨r.heap, r.store, decide ((r.heap.cell existing).ID ≠ id)⟩
    | .error _ => ⟨r.heap, r.store, false⟩
  else ⟨h, s, false⟩

/-- Method `(s *service) UpdateContact(id, name, email, phone)`. The fields are written
through the pointer that `GetByID` returned, before `repo.Update` is called. -/
def service.UpdateContact {σ : Type} (repo : Repository σ) (h : Heap) (s : σ) (id : Nat)
    (name email phone : String) : Res σ (Except Error Ptr) :=
  let r1 := repo.GetByID h s id
  match r1.ret with
  | .error err => ⟨r1.heap, r1.store, .error (.wrapNotFound err)⟩
  | .ok contact =>
    let r2 := emailConflict repo r1.heap r1.store contact id email
    if r2.ret then ⟨r2.heap, r2.store, .error .anotherEmailExists⟩
    else
      let h3 := r2.heap.write contact
        { r2.heap.cell contact with Name := name, Email := email, Phone := phone }
      let r4 := repo.Update h3 r2.store contact
      match r4.ret with
      | some err => ⟨r4.heap, r4.store, .error err⟩
      | none => ⟨r4.heap, r4.store, .ok contact⟩

/-- Method `(s *service) DeleteContact(id)`. -/
def service.DeleteContact {σ : Type} (repo : Repository σ) (h : Heap) (s : σ) (id : Nat) :
    Res σ (Option Error) :=
  let r1 := repo.GetByID h s id
  match r1.ret with
  | .error err => ⟨r1.heap, r1.store, some (.wrapNotFound err)⟩
  | .ok _ => repo.Delete r1.heap r1.store id

/-! ## Runs of calls on an in-memory backend -/

/-- A process state: the heap, and the `MemoryStore` that the service holds. -/
structure World where
  heap : Heap
  store : MemoryStore

/-- The state after a method returned. -/
def Res.world {ρ : Type} (r : Res MemoryStore ρ) : World := ⟨r.heap, r.store⟩

/-- A fresh in-memory backend, in a process whose heap is `h`. -/
def World.fresh (h : Heap) : World := ⟨h, NewMemoryStore⟩

/-- The record stored under `id`, as a reader gets it from `GetByID`. -/
def World.record (w : World) (id : Nat) : Option Contact :=
  match (MemoryStore.GetByID w.heap w.store id).ret with
  | .ok p => some (w.heap.cell p)
  | .error _ => none

/-- The records that `GetAll` returns. -/
def World.records (w : World) : List Contact :=
  match (MemoryStore.GetAll w.heap w.store).ret with
  | .ok ps => ps.map w.heap.cell
  | .error _ => []

/-- A call of the service; `now` is the clock reading during the call. A `rehash` step stands
for the freedom of Go to visit the entries of the map in another order from then on. -/
inductive ServiceCall where
  | createContact (now : Time) (name email phone : String)
  | updateContact (now : Time) (id : Nat) (name email phone : String)
  | deleteContact (now : Time) (id : Nat)
  | rehash (entries : List (Nat × Ptr))

/-- The state after one service call (whether it succeeds or fails). -/
def serviceStep (w : World) : ServiceCall → World
  | .createContact now name email phone =>
    (service.CreateContact (memoryRepo now) w.heap w.store name email phone).world
  | .updateContact now id name email phone =>
    (service.UpdateContact (memoryRepo now) w.heap w.store id name email phone).world
  | .deleteContact now id => (service.DeleteContact (memoryRepo now) w.heap w.store id).world
  | .rehash entries =>
    if entries.Perm w.store.contacts then ⟨w.heap, { w.store with contacts := entries }⟩ else w

/-- The state after a sequence of service calls. -/
def serviceRun (w : World) (calls : List ServiceCall) : World :=
  calls.foldl serviceStep w

/-- A call of a client of the store. Clients hold the pointers they pass in and get back, so
they may also assign through them (`write`), as the service does. -/
inductive StoreCall where
  | create (now : Time) (c : Ptr)
  | update (now : Time) (c : Ptr)
  | delete (id : Nat)
  | getByID (id : Nat)
  | getAll
  | getByEmail (email : String)
  | write (p : Ptr) (c : Contact)
  | rehash (entries : List (Nat × Ptr))

/-- The state after one store call, and the ID that the call assigned: `some c.ID` after a
`Create` that returned no error, `none` otherwise. -/
def storeStep (w : World) : StoreCall → World × Option Nat
  | .create now c =>
    let r := MemoryStore.Create now w.heap w.store c
    match r.ret with
    | none => (r.world, some (r.heap.cell c).ID)
    | some _ => (r.world, none)
  | .update now c => ((MemoryStore.Update now w.heap w.store c).world, none)
  | .delete id => ((MemoryStore.Delete w.heap w.store id).world, none)
  | .getByID id => ((MemoryStore.GetByID w.heap w.store id).world, none)
  | .getAll => ((MemoryStore.GetAll w.heap w.store).world, none)
  | .getByEmail email => ((MemoryStore.GetByEmail w.heap w.store email).world, none)
  | .write p c => (⟨w.heap.write p c, w.store⟩, none)
  | .rehash entries =>
    (if entries.Perm w.store.contacts then ⟨w.heap, { w.store with contacts := entries }⟩ else w,
      none)

/-- The state after a sequence of store calls. -/
def storeRun : World → List StoreCall → World
  | w, [] => w
  | w, call :: rest => storeRun (storeStep w call).1 rest

/-- The IDs assigned by the successful `Create` calls of a sequence, in call order. -/
def assignedIDs : World → List StoreCall → List Nat
  | _, [] => []
  | w, call :: rest =>
    match (storeStep w call).2 with
    | some id => id :: assignedIDs (storeStep w call).1 rest
    | none => assignedIDs (storeStep w call).1 rest

/-! ## `storage.GORMStore` and `storage.Factory` -/

/-- What `gorm.Open` and `AutoMigrate` do for a database path (the database engine is not
part of the repository). -/
inductive DBOpen where
  | ready
  | connectFails
  | migrateFails
  deriving DecidableEq, Repr

/-- The struct `GORMStore`: a handle on the database opened at `dbPath`. -/
structure GORMStore where
  dbPath : String
  deriving DecidableEq, Repr

/-- Constructor `NewGORMStore(dbPath)`. -/
def NewGORMStore (db : DBOpen) (dbPath : String) : Except Error GORMStore :=
  match db with
  | .connectFails => .error .connectFailed
  | .migrateFails => .error .migrateFailed
  | .ready => .ok ⟨dbPath⟩

/-- A value of the interface `Storer`: one of the three backends. -/
inductive Storer where
  | memory (m : MemoryStore)
  | json (j : JSONStore)
  | gorm (g : GORMStore)

/-- Method `(f *Factory) CreateStorage(storageType, filePath)`; `disk` is what is found at
`filePath` as a JSON file, `db` what opening it as a database does. The result is `none` when
the call panics. -/
def Factory.CreateStorage (disk : FileContent) (db : DBOpen) (h : Heap)
    (storageType filePath : String) : Option (Heap × Except Error Storer) :=
  if storageType = "memory" then some (h, .ok (.memory NewMemoryStore))
  else if storageType = "json" then
    match NewJSONStore disk h filePath with
    | none => none
    | some (h1, .ok j) => some (h1, .ok (.json j))
    | some (h1, .error err) => some (h1, .error err)
  else if storageType = "gorm" then
    match NewGORMStore db filePath with
    | .ok g => some (h, .ok (.gorm g))
    | .error err => some (h, .error err)
  else some (h, .error (.unsupportedType storageType))

/-- Method `(f *Factory) GetSupportedTypes()`. -/
def Factory.GetSupportedTypes : List String := ["memory", "json", "gorm"]

/-- The contact that a list of decoded contacts, read in order, leaves under `id`: the last
one whose ID is `id`. -/
def lastWithID : List Contact → Nat → Option Contact
  | [], _ => none
  | c :: rest, id =>
    match lastWithID rest id with
    | some d => some d
    | none => if c.ID = id then some c else none

/-- The fields of a contact that the file round trip is about: ID, name, e-mail, phone. -/
def Contact.key (c : Contact) : Nat × String × String × String :=
  (c.ID, c.Name, c.Email, c.Phone)

/-! ## Runs of calls on a file-backed store -/

/-- A process state: the heap, and a `JSONStore` with its file. -/
structure JSONWorld where
  heap : Heap
  store : JSONStore

/-- The state after a method of `JSONStore` returned. -/
def Res.jsonWorld {ρ : Type} (r : Res JSONStore ρ) : JSONWorld := ⟨r.heap, r.store⟩

/-- The store that `NewJSONStore(filename)` returns when the file does not exist. -/
def JSONWorld.fresh (h : Heap) (filename : String) : JSONWorld :=
  ⟨h, ⟨filename, [], 1, .missing⟩⟩

/-- The record stored under `id`, as a reader gets it from `GetByID`. -/
def JSONWorld.record (w : JSONWorld) (id : Nat) : Option Contact :=
  match (JSONStore.GetByID w.heap w.store id).ret with
  | .ok p => some (w.heap.cell p)
  | .error _ => none

/-- A call of a client of the file-backed store; `writeOk` tells whether the write of the
file succeeds during the call. -/
inductive JSONCall where
  | create (now : Time) (writeOk : Bool) (c : Ptr)
  | update (now : Time) (writeOk : Bool) (c : Ptr)
  | delete (writeOk : Bool) (id : Nat)
  | getByID (id : Nat)
  | getAll
  | getByEmail (email : String)
  | write (p : Ptr) (c : Contact)
  | rehash (entries : List (Nat × Ptr))

/-- The state after one call, and the ID that the call assigned: `some c.ID` after a `Create`
whose contact passed `Validate` (the ID is assigned and the contact stored before the file is
written), `none` otherwise. -/
def jsonStep (w : JSONWorld) : JSONCall → JSONWorld × Option Nat
  | .create now writeOk c =>
    match (w.heap.cell c).Validate with
    | none =>
      ((JSONStore.Create now writeOk w.heap w.store c).jsonWorld,
        some ((JSONStore.Create now writeOk w.heap w.store c).heap.cell c).ID)
    | some _ => ((JSONStore.Create now writeOk w.heap w.store c).jsonWorld, none)
  | .update now writeOk c => ((JSONStore.Update now writeOk w.heap w.store c).jsonWorld, none)
  | .delete writeOk id => ((JSONStore.Delete writeOk w.heap w.store id).jsonWorld, none)
  | .getByID id => ((JSONStore.GetByID w.heap w.store id).jsonWorld, none)
  | .getAll => ((JSONStore.GetAll w.heap w.store).jsonWorld, none)
  | .getByEmail email => ((JSONStore.GetByEmail w.heap w.store email).jsonWorld, none)
  | .write p c => (⟨w.heap.write p c, w.store⟩, none)
  | .rehash entries =>
    (if entries.Perm w.store.contacts then ⟨w.heap, { w.store with contacts := entries }⟩ else w,
      none)

/-- The state after a sequence of calls on one store instance. -/
def jsonRun : JSONWorld → List JSONCall → JSONWorld
  | w, [] => w
  | w, call :: rest => jsonRun (jsonStep w call).1 rest

/-- The IDs assigned by the `Create` calls of a sequence, in call order. -/
def jsonAssignedIDs : JSONWorld → List JSONCall → List Nat
  | _, [] => []
  | w, call :: rest =>
    match (jsonStep w call).2 with
    | some id => id :: jsonAssignedIDs (jsonStep w call).1 rest
    | none => jsonAssignedIDs (jsonStep w call).1 rest

/-- The store rebuilt from the file of `w` (close, then `NewJSONStore` on the same path);
`none` when the file cannot be loaded. -/
def JSONWorld.reopen (w : JSONWorld) : Option JSONWorld :=
  match NewJSONStore w.store.file w.heap w.store.filename with
  | some (h, .ok j) => some ⟨h, j⟩
  | _ => none

/-! ## The representation invariant of a store used through the service -/

/-- The invariant: the keys of the map are distinct, every contact is stored under its own
`ID`, every stored pointer has been allocated, and no two entries hold the same e-mail. -/
structure WF (w : World) : Prop where
  keys : (w.store.contacts.map Prod.fst).Nodup
  keyID : ∀ e ∈ w.store.contacts, (w.heap.cell e.2).ID = e.1
  alloc : ∀ e ∈ w.store.contacts, e.2 < w.heap.brk
  emails : ∀ e1 ∈ w.store.contacts, ∀ e2 ∈ w.store.contacts,
    (w.heap.cell e1.2).Email = (w.heap.cell e2.2).Email → e1 = e2

/-! ## The GORM hooks of `contact.go` -/

/-- Method `(c *Contact) BeforeCreate(tx)`: the contact after the three assignments, and the
returned error. -/
def Contact.BeforeCreate (c : Contact) : Contact × Option Error :=
  let c1 := { c with Name := TrimSpace c.Name }
  let c2 := { c1 with Email := TrimSpace (ToLower c1.Email) }
  let c3 := { c2 with Phone := TrimSpace c2.Phone }
  (c3, c3.Validate)

/-- Method `(c *Contact) BeforeUpdate(tx)`: the contact after the three assignments, and the
returned error. -/
def Contact.BeforeUpdate (c : Contact) : Contact × Option Error :=
  let c1 := { c with Name := TrimSpace c.Name }
  let c2 := { c1 with Email := TrimSpace (ToLower c1.Email) }
  let c3 := { c2 with Phone := TrimSpace c2.Phone }
  (c3, c3.Validate)

/-! ## `GORMStore.Update` and `GORMStore.Delete` (`gorm.go`) -/

/-- The rows of the contacts table. -/
abbrev Table := List Contact

/-- The two calls of the database library that `Update` and `Delete` make. The library is not
part of the repository, so it is a parameter: `Save t c` is `db.Save(c)` on table `t` (the
table and the contact afterwards, and the field `Error` of the result), `Delete t id` is
`db.Delete(&contact.Contact{}, id)`. -/
structure Engine where
  Save : Table → Contact → Table × Contact × Option Error
  Delete : Table → Nat → Table × Option Error

/-- Method `(g *GORMStore) Update(c)`: the result of `g.db.Save(c)`, as it is. -/
def GORMStore.Update (db : Engine) (t : Table) (c : Contact) : Table × Contact × Option Error :=
  db.Save t c

/-- Method `(g *GORMStore) Delete(id)`: the result of `g.db.Delete(...)`, as it is. -/
def GORMStore.Delete (db : Engine) (t : Table) (id : Nat) : Table × Option Error :=
  db.Delete t id

/-- The behaviour that the documentation of gorm gives for the two calls. `Delete` removes
the rows with the given primary key and reports no error, also when no row matches (only
`RowsAffected` is 0). `Save` of a contact with a zero ID inserts it under a new ID (here one
more than the largest ID of the table) after the hook `BeforeCreate`; `Save` of a contact
with a non-zero ID runs the hook `BeforeUpdate`, updates the row with that ID, and when no
row was updated inserts the contact. `now` is the time written by `autoUpdateTime`. The
unique index on the e-mail is not modelled. -/
def gormEngine (now : Time) : Engine where
  Delete := fun t id => (t.filter (fun r => r.ID ≠ id), none)
  Save := fun t c =>
    if c.ID = 0 then
      match c.BeforeCreate with
      | (c1, some err) => (t, c1, some err)
      | (c1, none) =>
        (t ++ [{ c1 with ID := (t.map Contact.ID).foldr max 0 + 1, CreatedAt := now,
                         UpdatedAt := now }],
          { c1 with ID := (t.map Contact.ID).foldr max 0 + 1, CreatedAt := now,
                    UpdatedAt := now }, none)
    else
      match c.BeforeUpdate with
      | (c1, some err) => (t, c1, some err)
      | (c1, none) =>
        if t.any (fun r => r.ID = c1.ID) then
          (t.map (fun r => if r.ID = c1.ID then { c1 with UpdatedAt := now } else r),
            { c1 with UpdatedAt := now }, none)
        else (t ++ [{ c1 with UpdatedAt := now }], { c1 with UpdatedAt := now }, none)

/-! ## The first program (`main.go`): `CRM` -/

/-- The struct `Contact` of package `main`. -/
structure CRMContact where
  ID : Int
  Name : String
  Email : String
  deriving DecidableEq, Repr

/-- The struct `CRM`: a `map[int]Contact` (the list of its entries) and the counter. -/
structure CRM where
  contacts : List (Int × CRMContact)
  nextID : Int
  deriving DecidableEq, Repr

/-- Constructor `NewCRM()`. -/
def NewCRM : CRM := ⟨[], 1⟩

/-- Lookup `contact, ok := crm.contacts[id]`. -/
def crmGet : List (Int × CRMContact) → Int → Option CRMContact
  | [], _ => none
  | (k, v) :: rest, id => if k = id then some v else crmGet rest id

/-- Assignment `crm.contacts[id] = contact`. -/
def crmSet : List (Int × CRMContact) → Int → CRMContact → List (Int × CRMContact)
  | [], id, c => [(id, c)]
  | (k, v) :: rest, id, c => if k = id then (id, c) :: rest else (k, v) :: crmSet rest id c

/-- Removal `delete(crm.contacts, id)`. -/
def crmDelete (m : List (Int × CRMContact)) (id : Int) : List (Int × CRMContact) :=
  m.filter (fun e => e.1 ≠ id)

/-- Method `(crm *CRM) addContact(scanner)`; `nameLine` and `emailLine` are the lines that
the scanner delivers (`none` when `Scan` fails). The messages printed are not modelled. -/
def CRM.addContact (crm : CRM) (nameLine emailLine : Option String) : CRM :=
  match nameLine with
  | none => crm
  | some l1 =>
    if TrimSpace l1 = "" then crm
    else
      match emailLine with
      | none => crm
      | some l2 =>
        if TrimSpace l2 = "" then crm
        else if !Contains (TrimSpace l2) "@" then crm
        else
          { contacts := crmSet crm.contacts crm.nextID ⟨crm.nextID, TrimSpace l1, TrimSpace l2⟩,
            nextID := crm.nextID + 1 }

/-- Method `(crm *CRM) updateContact(scanner)`; `id` is the result of `strconv.Atoi` on the
first line (`none` when the line cannot be read or is not a number), `nameLine` and
`emailLine` the next two lines. -/
def CRM.updateContact (crm : CRM) (id : Option Int) (nameLine emailLine : Option String) :
    CRM :=
  match id with
  | none => crm
  | some id =>
    match crmGet crm.contacts id with
    | none => crm
    | some contact =>
      match nameLine with
      | none => crm
      | some l1 =>
        match emailLine with
        | none => crm
        | some l2 =>
          if TrimSpace l2 ≠ "" ∧ Contains (TrimSpace l2) "@" = false then crm
          else
            { crm with
              contacts := crmSet crm.contacts id
                ⟨id, if TrimSpace l1 = "" then contact.Name else TrimSpace l1,
                  if TrimSpace l2 = "" then contact.Email else TrimSpace l2⟩ }

/-- Method `(crm *CRM) deleteContact(scanner)`; `id` is the result of `strconv.Atoi` on the
first line, `confirmed` tells whether the answer to the confirmation is "y" or "yes". -/
def CRM.deleteContact (crm : CRM) (id : Option Int) (confirmed : Bool) : CRM :=
  match id with
  | none => crm
  | some id =>
    match crmGet crm.contacts id with
    | none => crm
    | some _ => if confirmed then { crm with contacts := crmDelete crm.contacts id } else crm

/-- A call of the menu of the first program. -/
inductive CRMCall where
  | add (nameLine emailLine : Option String)
  | update (id : Option Int) (nameLine emailLine : Option String)
  | delete (id : Option Int) (confirmed : Bool)

/-- The `CRM` after one call of the menu. -/
def crmStep (crm : CRM) : CRMCall → CRM
  | .add nameLine emailLine => crm.addContact nameLine emailLine
  | .update id nameLine emailLine => crm.updateContact id nameLine emailLine
  | .delete id confirmed => crm.deleteContact id confirmed

/-- The `CRM` after a sequence of calls of the menu. -/
def crmRun (crm : CRM) (calls : List CRMCall) : CRM :=
  calls.foldl crmStep crm

/-! ## The steps of `UpdateContact` between the locked calls -/

/-- The heaps that other goroutines can read while `UpdateContact` runs and holds no lock of
the store: after each of the assignments of lines 74, 75 and 76 of service.go, and after
`repo.Update` has returned. The list is empty when the call returns before line 74. The map
of the store is the same at the first three points as after the e-mail check. -/
def service.UpdateContact.unlockedHeaps {σ : Type} (repo : Repository σ) (h : Heap) (s : σ)
    (id : Nat) (name email phone : String) : List Heap :=
  match (repo.GetByID h s id).ret with
  | .error _ => []
  | .ok contact =>
    if (emailConflict repo (repo.GetByID h s id).heap (repo.GetByID h s id).store contact id
        email).ret then []
    else
      let r2 := emailConflict repo (repo.GetByID h s id).heap (repo.GetByID h s id).store
        contact id email
      let h74 := r2.heap.write contact { r2.heap.cell contact with Name := name }
      let h75 := h74.write contact { h74.cell contact with Email := email }
      let h76 := h75.write contact { h75.cell contact with Phone := phone }
      [h74, h75, h76, (repo.Update h76 r2.store contact).heap]

/-- A sequence of store calls in which `Create` is never given an object that the store holds
at that moment, and no client write changes the `ID` of an object that the store holds. -/
def disciplined : World → List StoreCall → Bool
  | _, [] => true
  | w, call :: rest =>
    (match call with
      | .create _ c => w.store.contacts.all fun e => decide (e.2 ≠ c)
      | .write p c =>
        (w.store.contacts.all fun e => decide (e.2 ≠ p)) || decide (c.ID = (w.heap.cell p).ID)
      | _ => true) &&
    disciplined (storeStep w call).1 rest

/-! ## The in-memory store and the file-backed store side by side -/

/-- A heap whose only object, at address 0, is a valid contact that no store holds yet. -/
def adaHeap : Heap :=
  (Heap.empty.new ⟨0, "Ada Lovelace", "ada@x.com", "0612345678", 0, 0⟩).1

/-- A store with one contact, created at time 1 through the service. -/
def adaWorld : World :=
  serviceRun (World.fresh Heap.empty) [.createContact 1 "Ada Lovelace" "a@x.com" ""]

/-- A store with two contacts, created at times 1 and 2 through the service. -/
def adaBobWorld : World :=
  serviceRun (World.fresh Heap.empty)
    [.createContact 1 "Ada Lovelace" "a@x.com" "", .createContact 2 "Bob" "bob@x.com" ""]

/-- A file-backed store holding the contacts of `adaBobWorld`, with its file up to date. -/
def adaBobJSON : JSONStore :=
  { filename := "contacts.json", contacts := adaBobWorld.store.contacts,
    nextID := adaBobWorld.store.nextID, file := .array (adaBobWorld.records.map some) }

/-- A run of store calls: the contact of `adaHeap` is created, deleted and created again; a
contact with an empty name is refused; a third contact is created. -/
def sampleCalls : List StoreCall :=
  [.create 1 0, .getByID 1, .delete 1, .create 2 0, .create 3 1,
    .write 1 ⟨0, "Bob", "bob@x.com", "", 0, 0⟩, .update 4 0, .create 5 1, .getAll]

/-- The in-memory repository behind an engine whose e-mail lookup fails: `GetByEmail`
returns an engine error, the other methods work. -/
def flakyLookupRepo (now : Time) : Repository MemoryStore :=
  { memoryRepo now with GetByEmail := fun h s _ => ⟨h, s, .error .engine⟩ }

/-- The heap of `adaWorld` after a client built a replacement for contact 1, with a zero
`CreatedAt`, at address 1. -/
def replacementHeap : Heap := (adaWorld.heap.new ⟨1, "Ada King", "ada@y.org", "", 0, 0⟩).1

/-- A heap with two valid contacts that no store holds yet, at addresses 0 and 1. -/
def adaBobHeap : Heap := (adaHeap.new ⟨0, "Bob", "bob@x.com", "", 0, 0⟩).1

/-- A file with one contact whose ID is the largest `uint`. -/
def maxIDFile : FileContent := .array [some ⟨2 ^ 64 - 1, "Ada Lovelace", "a@x.com", "", 1, 1⟩]

/-- A file-backed store after `Create` was called twice with the same contact object. -/
def createdTwice : JSONWorld :=
  jsonRun (JSONWorld.fresh adaHeap "contacts.json") [.create 1 true 0, .create 2 true 0]

/-- A file-backed store in which two contacts were created and the second one deleted. -/
def secondDeleted : JSONWorld :=
  jsonRun (JSONWorld.fresh adaBobHeap "contacts.json")
    [.create 1 true 0, .create 2 true 1, .delete true 2]

/-- A file-backed store holding two contacts, created through distinct objects. -/
def adaBobJSONWorld : JSONWorld :=
  jsonRun (JSONWorld.fresh adaBobHeap "contacts.json") [.create 1 true 0, .create 2 true 1]

/-- A run on a file-backed store: a create, a create whose file write fails, a delete, and a
third create. -/
def sampleJSONCalls : List JSONCall :=
  [.create 1 true 0, .create 2 false 1, .delete true 2, .getAll, .create 3 true 1]

/-- The contacts of a file written by hand: IDs 7 and 3. -/
def sampleSaved : List Contact :=
  [⟨7, "Bob", "bob@x.com", "", 4, 4⟩, ⟨3, "Ada Lovelace", "a@x.com", "0612345678", 1, 2⟩]

/-- A contact with valid name and e-mail whose phone has a leading space. -/
def spacedPhone : Contact := ⟨0, "Ada Lovelace", "a@x.com", " 0612345678", 0, 0⟩

/-- A contact with valid name and e-mail whose phone is made of three spaces. -/
def blankPhone : Contact := ⟨0, "Ada Lovelace", "a@x.com", "   ", 0, 0⟩

/-- A contact with ID 7, valid fields, and no row in any table yet. -/
def unsavedSeven : Contact := ⟨7, "Ada Lovelace", "a@x.com", "", 1, 1⟩

/-- A file whose content is the JSON text `[null]`. -/
def nullFile : FileContent := .array [none]

/-- A run of the menu of the first program: two contacts are added, an entry with an invalid
e-mail is refused, the first contact is renamed and the second one deleted. -/
def sampleCRMCalls : List CRMCall :=
  [.add (some " Alice ") (some "alice@test.com"), .add (some "Bob") (some "bob@test.com"),
    .add (some "Charlie") (some "charlie"), .update (some 1) (some "Alice B") (some ""),
    .delete (some 2) true]

theorem mapGet_eq_none_iff (l : List (Nat × Ptr)) (id : Nat) :
    mapGet l id = none ↔ id ∉ l.map Prod.fst := by
  induction l with
  | nil => simp [mapGet]
  | cons e rest ih =>
    obtain ⟨k, v⟩ := e
    by_cases hk : k = id
    · simp [mapGet, hk]
    · have hk2 : ¬ id = k := fun h => hk h.symm
      simp [mapGet, hk, hk2, ih]

theorem mapGet_mem {l : List (Nat × Ptr)} {id : Nat} {p : Ptr} (hget : mapGet l id = some p) :
    (id, p) ∈ l := by
  induction l with
  | nil => simp [mapGet] at hget
  | cons e rest ih =>
    obtain ⟨k, v⟩ := e
    by_cases hk : k = id
    · simp [mapGet, hk] at hget
      simp [hk, hget]
    · simp [mapGet, hk] at hget
      exact List.mem_cons_of_mem _ (ih hget)

theorem mapGet_of_mem {l : List (Nat × Ptr)} {id : Nat} {p : Ptr}
    (hnd : (l.map Prod.fst).Nodup) (hmem : (id, p) ∈ l) : mapGet l id = some p := by
  induction l with
  | nil => simp at hmem
  | cons e rest ih =>
    obtain ⟨k, v⟩ := e
    simp only [List.map_cons, List.nodup_cons] at hnd
    by_cases hk : k = id
    · subst hk
      rcases List.mem_cons.mp hmem with heq | hin
      · simp only [Prod.mk.injEq] at heq
        simp [mapGet, heq.2]
      · exact absurd (List.mem_map_of_mem Prod.fst hin) hnd.1
    · rcases List.mem_cons.mp hmem with heq | hin
      · simp only [Prod.mk.injEq] at heq
        exact absurd heq.1.symm hk
      · simp [mapGet, hk, ih hnd.2 hin]

theorem mapDelete_nil (id : Nat) : mapDelete [] id = [] := rfl

theorem mapDelete_cons_eq (k : Nat) (v : Ptr) (rest : List (Nat × Ptr)) :
    mapDelete ((k, v) :: rest) k = mapDelete rest k := by
  simp [mapDelete]

theorem mapDelete_cons_ne {k id : Nat} (v : Ptr) (rest : List (Nat × Ptr)) (hne : k ≠ id) :
    mapDelete ((k, v) :: rest) id = (k, v) :: mapDelete rest id := by
  simp [mapDelete, hne]

theorem mem_mapDelete {l : List (Nat × Ptr)} {id : Nat} {e : Nat × Ptr} :
    e ∈ mapDelete l id ↔ e ∈ l ∧ e.1 ≠ id := by
  simp [mapDelete, List.mem_filter]

theorem mapGet_mapDelete_self (l : List (Nat × Ptr)) (id : Nat) :
    mapGet (mapDelete l id) id = none := by
  rw [mapGet_eq_none_iff]
  intro hmem
  obtain ⟨e, he, hk⟩ := List.mem_map.mp hmem
  exact (mem_mapDelete.mp he).2 hk

theorem mapGet_mapDelete_ne (l : List (Nat × Ptr)) {id k : Nat} (hne : k ≠ id) :
    mapGet (mapDelete l id) k = mapGet l k := by
  induction l with
  | nil => rfl
  | cons e rest ih =>
    obtain ⟨a, v⟩ := e
    by_cases ha : a = id
    · subst ha
      have hak : ¬ a = k := fun h => hne h.symm
      rw [mapDelete_cons_eq, ih]
      simp [mapGet, hak]
    · rw [mapDelete_cons_ne v rest ha]
      by_cases hak : a = k
      · simp [mapGet, hak]
      · simp [mapGet, hak, ih]

theorem mapGet_mapSet_self (l : List (Nat × Ptr)) (id : Nat) (p : Ptr) :
    mapGet (mapSet l id p) id = some p := by
  induction l with
  | nil => simp [mapSet, mapGet]
  | cons e rest ih =>
    obtain ⟨a, v⟩ := e
    by_cases ha : a = id
    · simp [mapSet, ha, mapGet]
    · simp [mapSet, ha, mapGet, ih]

theorem mapGet_mapSet_ne (l : List (Nat × Ptr)) {id k : Nat} (p : Ptr) (hne : k ≠ id) :
    mapGet (mapSet l id p) k = mapGet l k := by
  have hne2 : ¬ id = k := fun h => hne h.symm
  induction l with
  | nil => simp [mapSet, mapGet, hne2]
  | cons e rest ih =>
    obtain ⟨a, v⟩ := e
    by_cases ha : a = id
    · subst ha
      simp [mapSet, mapGet, hne2]
    · by_cases hak : a = k
      · subst hak
        simp [mapSet, ha, mapGet]
      · simp [mapSet, ha, mapGet, hak, ih]

/-- Storing under a key the pointer the key already has leaves the map as it is. -/
theorem mapSet_of_mapGet {l : List (Nat × Ptr)} {id : Nat} {p : Ptr}
    (hget : mapGet l id = some p) : mapSet l id p = l := by
  induction l with
  | nil => simp [mapGet] at hget
  | cons e rest ih =>
    obtain ⟨a, v⟩ := e
    by_cases ha : a = id
    · simp [mapGet, ha] at hget
      simp [mapSet, ha, hget]
    · simp [mapGet, ha] at hget
      simp [mapSet, ha, ih hget]

/-! ## Validation (`contact.go`) -/

/-- The rules on `Name` and `Email` that `Validate` checks. -/
theorem validate_eq_none_iff (c : Contact) :
    c.Validate = none ↔
      TrimSpace c.Name ≠ "" ∧ TrimSpace c.Email ≠ "" ∧ Contains c.Email "@" = true ∧
        (c.Phone = "" ∨ HasPrefix c.Phone "06" = true ∨ HasPrefix c.Phone "07" = true) := by
  unfold Contact.Validate
  by_cases h1 : TrimSpace c.Name = ""
  · simp [h1]
  · by_cases h2 : TrimSpace c.Email = ""
    · simp [h1, h2]
    · by_cases h3 : Contains c.Email "@" = true
      · by_cases h4 : c.Phone = ""
        · simp [h1, h2, h3, h4]
        · by_cases h5 : HasPrefix c.Phone "06" = true
          · simp [h1, h2, h3, h4, h5]
          · by_cases h6 : HasPrefix c.Phone "07" = true
            · simp [h1, h2, h3, h4, h5, h6]
            · simp [h1, h2, h3, h4, h5, h6]
      · simp [h1, h2, h3]

/-- C2. `Validate` returns no error exactly when the trimmed name is non-empty, the trimmed
e-mail is non-empty, the e-mail contains "@", and the phone is empty or starts with "06" or
"07". In particular, with phone "0612345678" or with the empty phone a contact is accepted
exactly when its name and e-mail are acceptable, and with phone "0512345678" it is rejected. -/
theorem C2_validate_iff (c : Contact) :
    (c.Validate = none ↔
      TrimSpace c.Name ≠ "" ∧ TrimSpace c.Email ≠ "" ∧ Contains c.Email "@" = true ∧
        (c.Phone = "" ∨ HasPrefix c.Phone "06" = true ∨ HasPrefix c.Phone "07" = true)) ∧
    (({ c with Phone := "0612345678" } : Contact).Validate = none ↔
      TrimSpace c.Name ≠ "" ∧ TrimSpace c.Email ≠ "" ∧ Contains c.Email "@" = true) ∧
    (({ c with Phone := "" } : Contact).Validate = none ↔
      TrimSpace c.Name ≠ "" ∧ TrimSpace c.Email ≠ "" ∧ Contains c.Email "@" = true) ∧
    ({ c with Phone := "0512345678" } : Contact).Validate ≠ none := by
  refine ⟨validate_eq_none_iff c, ?_, ?_, ?_⟩
  · rw [validate_eq_none_iff]
    have hp : HasPrefix "0612345678" "06" = true := by decide
    simp [hp]
  · rw [validate_eq_none_iff]
    simp
  · rw [Ne, validate_eq_none_iff]
    have h0 : ¬ ("0512345678" : String) = "" := by decide
    have h1 : ¬ HasPrefix "0512345678" "06" = true := by decide
    have h2 : ¬ HasPrefix "0512345678" "07" = true := by decide
    simp [h0, h1, h2]

/-! ## The in-memory store (`memory.go`) -/

/-- C1. In a store whose counter is positive, `Create` of a contact that passes `Validate`
returns no error, and `GetByID` of the assigned ID then returns the contact with the name,
e-mail and phone supplied, a positive ID, and `CreatedAt` equal to `UpdatedAt`. -/
theorem C1_create_then_getByID (now : Time) (h : Heap) (m : MemoryStore) (c : Ptr)
    (hvalid : (h.cell c).Validate = none) (hnext : 0 < m.nextID) :
    (MemoryStore.Create now h m c).ret = none ∧
    ∃ p, (MemoryStore.GetByID (MemoryStore.Create now h m c).heap
          (MemoryStore.Create now h m c).store
          ((MemoryStore.Create now h m c).heap.cell c).ID).ret = .ok p ∧
      ((MemoryStore.Create now h m c).heap.cell p).Name = (h.cell c).Name ∧
      ((MemoryStore.Create now h m c).heap.cell p).Email = (h.cell c).Email ∧
      ((MemoryStore.Create now h m c).heap.cell p).Phone = (h.cell c).Phone ∧
      0 < ((MemoryStore.Create now h m c).heap.cell p).ID ∧
      ((MemoryStore.Create now h m c).heap.cell p).CreatedAt =
        ((MemoryStore.Create now h m c).heap.cell p).UpdatedAt := by
  refine ⟨by simp [MemoryStore.Create, hvalid], c, ?_⟩
  simp [MemoryStore.Create, hvalid, MemoryStore.GetByID, Heap.write, mapGet_mapSet_self, hnext]

/-- C1 applies to the fresh store and the valid contact of `adaHeap`, which gets ID 1. -/
theorem C1_create_then_getByID_witness :
    (adaHeap.cell 0).Validate = none ∧ 0 < NewMemoryStore.nextID ∧
    (MemoryStore.Create 7 adaHeap NewMemoryStore 0).ret = none ∧
    ∃ p, (MemoryStore.GetByID (MemoryStore.Create 7 adaHeap NewMemoryStore 0).heap
          (MemoryStore.Create 7 adaHeap NewMemoryStore 0).store 1).ret = .ok p ∧
      ((MemoryStore.Create 7 adaHeap NewMemoryStore 0).heap.cell p).Name = "Ada Lovelace" ∧
      ((MemoryStore.Create 7 adaHeap NewMemoryStore 0).heap.cell p).Email = "ada@x.com" ∧
      ((MemoryStore.Create 7 adaHeap NewMemoryStore 0).heap.cell p).Phone = "0612345678" ∧
      0 < ((MemoryStore.Create 7 adaHeap NewMemoryStore 0).heap.cell p).ID ∧
      ((MemoryStore.Create 7 adaHeap NewMemoryStore 0).heap.cell p).CreatedAt =
        ((MemoryStore.Create 7 adaHeap NewMemoryStore 0).heap.cell p).UpdatedAt :=
  ⟨by decide, by decide, C1_create_then_getByID 7 adaHeap NewMemoryStore 0 (by decide) (by decide)⟩

/-- C9. When the ID of the contact is not a key of the map, `Update` of the in-memory store and
of the file-backed store return the not-found error, whatever the fields of the contact, and
leave the heap and the store (entries, counter, and the file) exactly as they were. -/
theorem C9_update_absent_id (now : Time) (writeOk : Bool) (h : Heap) (m : MemoryStore)
    (j : JSONStore) (c : Ptr) :
    ((h.cell c).ID ∉ m.contacts.map Prod.fst →
      (MemoryStore.Update now h m c).ret = some .contactNotFound ∧
      Error.contactNotFound.isNotFound = true ∧
      (MemoryStore.Update now h m c).heap = h ∧
      (MemoryStore.Update now h m c).store = m ∧
      (MemoryStore.Update now h m c).store.contacts.length = m.contacts.length ∧
      (MemoryStore.Update now h m c).store.nextID = m.nextID) ∧
    ((h.cell c).ID ∉ j.contacts.map Prod.fst →
      (JSONStore.Update now writeOk h j c).ret = some .contactNotFound ∧
      (JSONStore.Update now writeOk h j c).heap = h ∧
      (JSONStore.Update now writeOk h j c).store = j ∧
      (JSONStore.Update now writeOk h j c).store.contacts.length = j.contacts.length ∧
      (JSONStore.Update now writeOk h j c).store.nextID = j.nextID) := by
  constructor
  · intro habs
    have hget := (mapGet_eq_none_iff m.contacts (h.cell c).ID).mpr habs
    simp [MemoryStore.Update, hget, Error.isNotFound]
  · intro habs
    have hget := (mapGet_eq_none_iff j.contacts (h.cell c).ID).mpr habs
    simp [JSONStore.Update, hget]

/-- C9 applies to a contact with ID 9 and an empty name, in stores that hold IDs 1 and 2. -/
theorem C9_update_absent_id_witness :
    ((adaBobWorld.heap.write 5 ⟨9, "", "", "", 0, 0⟩).cell 5).ID ∉
        adaBobWorld.store.contacts.map Prod.fst ∧
    ((adaBobWorld.heap.write 5 ⟨9, "", "", "", 0, 0⟩).cell 5).ID ∉
        adaBobJSON.contacts.map Prod.fst ∧
    (MemoryStore.Update 3 (adaBobWorld.heap.write 5 ⟨9, "", "", "", 0, 0⟩)
        adaBobWorld.store 5).ret = some .contactNotFound ∧
    (JSONStore.Update 3 true (adaBobWorld.heap.write 5 ⟨9, "", "", "", 0, 0⟩)
        adaBobJSON 5).store = adaBobJSON :=
  ⟨by decide, by decide,
    ((C9_update_absent_id 3 true (adaBobWorld.heap.write 5 ⟨9, "", "", "", 0, 0⟩)
      adaBobWorld.store adaBobJSON 5).1 (by decide)).1,
    ((C9_update_absent_id 3 true (adaBobWorld.heap.write 5 ⟨9, "", "", "", 0, 0⟩)
      adaBobWorld.store adaBobJSON 5).2 (by decide)).2.2.1⟩

/-- C10. If `id` is a key of the map, `Delete(id)` returns no error, `GetByID(id)` then fails
with the not-found error, `GetByID` of every other ID returns what it returned before, and the
heap and the counter are unchanged. If `id` is not a key, `Delete(id)` returns the not-found
error and the heap and the store are unchanged. -/
theorem C10_delete (h : Heap) (m : MemoryStore) (id : Nat) :
    (id ∈ m.contacts.map Prod.fst →
      (MemoryStore.Delete h m id).ret = none ∧
      (MemoryStore.GetByID (MemoryStore.Delete h m id).heap (MemoryStore.Delete h m id).store
        id).ret = .error (.noContactWithID id) ∧
      (Error.noContactWithID id).isNotFound = true ∧
      (∀ k, k ≠ id →
        (MemoryStore.GetByID (MemoryStore.Delete h m id).heap (MemoryStore.Delete h m id).store
          k).ret = (MemoryStore.GetByID h m k).ret) ∧
      (MemoryStore.Delete h m id).heap = h ∧
      (MemoryStore.Delete h m id).store.nextID = m.nextID) ∧
    (id ∉ m.contacts.map Prod.fst →
      (MemoryStore.Delete h m id).ret = some .contactNotFound ∧
      Error.contactNotFound.isNotFound = true ∧
      (MemoryStore.Delete h m id).heap = h ∧
      (MemoryStore.Delete h m id).store = m) := by
  constructor
  · intro hpres
    have hne : mapGet m.contacts id ≠ none := by
      rw [Ne, mapGet_eq_none_iff]
      exact fun habs => habs hpres
    obtain ⟨p, hp⟩ := Option.ne_none_iff_exists'.mp hne
    refine ⟨by simp [MemoryStore.Delete, hp], ?_, rfl, ?_, by simp [MemoryStore.Delete, hp],
      by simp [MemoryStore.Delete, hp]⟩
    · simp [MemoryStore.Delete, hp, MemoryStore.GetByID, mapGet_mapDelete_self]
    · intro k hk
      simp only [MemoryStore.Delete, hp, MemoryStore.GetByID, mapGet_mapDelete_ne _ hk]
      cases mapGet m.contacts k <;> rfl
  · intro habs
    have hget := (mapGet_eq_none_iff m.contacts id).mpr habs
    simp [MemoryStore.Delete, hget, Error.isNotFound]

/-- C10 applies to the store holding IDs 1 and 2: deleting 1 succeeds and keeps 2, deleting 7
fails. -/
theorem C10_delete_witness :
    1 ∈ adaBobWorld.store.contacts.map Prod.fst ∧
    7 ∉ adaBobWorld.store.contacts.map Prod.fst ∧
    (MemoryStore.Delete adaBobWorld.heap adaBobWorld.store 1).ret = none ∧
    (MemoryStore.GetByID (MemoryStore.Delete adaBobWorld.heap adaBobWorld.store 1).heap
      (MemoryStore.Delete adaBobWorld.heap adaBobWorld.store 1).store 2).ret =
      (MemoryStore.GetByID adaBobWorld.heap adaBobWorld.store 2).ret ∧
    (MemoryStore.Delete adaBobWorld.heap adaBobWorld.store 7).ret = some .contactNotFound :=
  ⟨by decide, by decide,
    ((C10_delete adaBobWorld.heap adaBobWorld.store 1).1 (by decide)).1,
    ((C10_delete adaBobWorld.heap adaBobWorld.store 1).1 (by decide)).2.2.2.1 2 (by decide),
    ((C10_delete adaBobWorld.heap adaBobWorld.store 7).2 (by decide)).1⟩


/-- One store call either assigns the current counter and advances it, or assigns nothing and
keeps the counter. -/
theorem storeStep_nextID (w : World) (call : StoreCall) :
    ((storeStep w call).2 = some w.store.nextID ∧
      (storeStep w call).1.store.nextID = (w.store.nextID + 1) % uintMod) ∨
    ((storeStep w call).2 = none ∧ (storeStep w call).1.store.nextID = w.store.nextID) := by
  cases call with
  | create now c =>
    cases hv : (w.heap.cell c).Validate with
    | none =>
      left
      simp [storeStep, MemoryStore.Create, hv, Res.world, Heap.write]
    | some err =>
      right
      simp [storeStep, MemoryStore.Create, hv, Res.world]
  | update now c =>
    right
    refine ⟨rfl, ?_⟩
    simp only [storeStep, MemoryStore.Update, Res.world]
    cases mapGet w.store.contacts (w.heap.cell c).ID with
    | none => rfl
    | some p => cases (w.heap.cell c).Validate <;> rfl
  | delete id =>
    right
    refine ⟨rfl, ?_⟩
    simp only [storeStep, MemoryStore.Delete, Res.world]
    cases mapGet w.store.contacts id <;> rfl
  | getByID id =>
    right
    refine ⟨rfl, ?_⟩
    simp only [storeStep, MemoryStore.GetByID, Res.world]
    cases mapGet w.store.contacts id <;> rfl
  | getAll => exact Or.inr ⟨rfl, rfl⟩
  | getByEmail email =>
    right
    refine ⟨rfl, ?_⟩
    simp only [storeStep, MemoryStore.GetByEmail, Res.world]
    cases findByEmail w.heap w.store.contacts email <;> rfl
  | write p c => exact Or.inr ⟨rfl, rfl⟩
  | rehash entries =>
    right
    refine ⟨rfl, ?_⟩
    simp only [storeStep]
    split <;> rfl

/-- From a counter `n` that the calls cannot make wrap, the assigned IDs are `n, n + 1, ...`
and the counter ends at `n` plus their number. -/
theorem assignedIDs_from (calls : List StoreCall) :
    ∀ (w : World) (n : Nat), w.store.nextID = n → n + calls.length < uintMod →
      assignedIDs w calls = List.range' n (assignedIDs w calls).length ∧
      (storeRun w calls).store.nextID = n + (assignedIDs w calls).length := by
  induction calls with
  | nil =>
    intro w n hn _
    simp [assignedIDs, storeRun, hn]
  | cons call rest ih =>
    intro w n hn hlen
    simp only [List.length_cons] at hlen
    rcases storeStep_nextID w call with ⟨hid, hnext⟩ | ⟨hid, hnext⟩
    · have hmod : (w.store.nextID + 1) % uintMod = n + 1 := by
        rw [hn]
        exact Nat.mod_eq_of_lt (by omega)
      obtain ⟨h1, h2⟩ := ih (storeStep w call).1 (n + 1) (hnext.trans hmod) (by omega)
      simp only [assignedIDs, storeRun, hid, List.length_cons]
      constructor
      · rw [List.range'_succ, ← h1, hn]
      · rw [h2]
        omega
    · obtain ⟨h1, h2⟩ := ih (storeStep w call).1 n (hnext.trans hn) (by omega)
      simp only [assignedIDs, storeRun, hid]
      exact ⟨h1, h2⟩

/-- C6. On a fresh in-memory store, in any heap, and for any sequence of `Create`, `Update`,
`Delete`, read calls and client writes short enough that the counter does not wrap, the k-th
successful `Create` is assigned ID k: the assigned IDs are 1, 2, ..., they increase strictly
(so no ID is assigned twice, whatever was deleted in between), and the counter ends at one
more than the number of successful `Create` calls (failed calls consume no ID). -/
theorem C6_ids_sequential (h : Heap) (calls : List StoreCall)
    (hlen : calls.length + 1 < uintMod) :
    assignedIDs (World.fresh h) calls =
      List.range' 1 (assignedIDs (World.fresh h) calls).length ∧
    (assignedIDs (World.fresh h) calls).Pairwise (fun a b => a < b) ∧
    (storeRun (World.fresh h) calls).store.nextID =
      (assignedIDs (World.fresh h) calls).length + 1 := by
  obtain ⟨h1, h2⟩ := assignedIDs_from calls (World.fresh h) 1 rfl (by omega)
  refine ⟨h1, ?_, by omega⟩
  rw [h1]
  exact List.pairwise_lt_range' 1 _

/-- C6 applies to a run in which a valid contact is created, deleted, and created again with
another contact after a failed `Create`: the IDs assigned are 1, 2, 3. -/
theorem C6_ids_sequential_witness :
    sampleCalls.length + 1 < uintMod ∧
    assignedIDs (World.fresh adaHeap) sampleCalls = [1, 2, 3] ∧
    (storeRun (World.fresh adaHeap) sampleCalls).store.nextID = 4 := by
  have h := C6_ids_sequential adaHeap sampleCalls (by decide)
  have hl : (assignedIDs (World.fresh adaHeap) sampleCalls).length = 3 := by decide
  rw [hl] at h
  exact ⟨by decide, h.1, h.2.2⟩


/-! ## The service on an in-memory backend (`service.go`): observed behaviour -/

/-- C3 (the code at the failing input). The e-mails "a@x.com" and "A@X.com" are equal after
lower-casing and trimming, yet after `CreateContact` with the first, `CreateContact` with the
second returns no error and the store holds both contacts, under IDs 1 and 2. -/
theorem C3_case_variant_email_is_accepted :
    TrimSpace (ToLower "a@x.com") = TrimSpace (ToLower "A@X.com") ∧
    adaWorld.record 1 = some ⟨1, "Ada Lovelace", "a@x.com", "", 1, 1⟩ ∧
    (service.CreateContact (memoryRepo 2) adaWorld.heap adaWorld.store "Ada" "A@X.com" "").ret =
      .ok 1 ∧
    (service.CreateContact (memoryRepo 2) adaWorld.heap adaWorld.store "Ada" "A@X.com"
      "").world.record 1 = some ⟨1, "Ada Lovelace", "a@x.com", "", 1, 1⟩ ∧
    (service.CreateContact (memoryRepo 2) adaWorld.heap adaWorld.store "Ada" "A@X.com"
      "").world.record 2 = some ⟨2, "Ada", "A@X.com", "", 2, 2⟩ := by
  decide

/-- C4 (the code at the failing input). `CreateContact` with e-mail "ADA@X.COM" on a fresh
in-memory backend succeeds and the stored e-mail is "ADA@X.COM", not the trimmed lower-case
"ada@x.com". -/
theorem C4_email_is_stored_as_given :
    (service.CreateContact (memoryRepo 1) Heap.empty NewMemoryStore "Ada Lovelace" "ADA@X.COM"
      "").ret = .ok 0 ∧
    (service.CreateContact (memoryRepo 1) Heap.empty NewMemoryStore "Ada Lovelace" "ADA@X.COM"
      "").world.record 1 = some ⟨1, "Ada Lovelace", "ADA@X.COM", "", 1, 1⟩ ∧
    TrimSpace (ToLower "ADA@X.COM") = "ada@x.com" ∧
    ("ADA@X.COM" : String) ≠ "ada@x.com" := by
  decide

/-- C7 (the code at the failing input). `UpdateContact` of contact 1 with a phone that
`Validate` refuses returns the validation error, and the record stored under ID 1 has the new
name, e-mail and phone all the same. -/
theorem C7_failed_update_changes_record :
    adaWorld.record 1 = some ⟨1, "Ada Lovelace", "a@x.com", "", 1, 1⟩ ∧
    (service.UpdateContact (memoryRepo 2) adaWorld.heap adaWorld.store 1 "Eve" "eve@y.org"
      "123").ret = .error .phonePrefix ∧
    (service.UpdateContact (memoryRepo 2) adaWorld.heap adaWorld.store 1 "Eve" "eve@y.org"
      "123").world.record 1 = some ⟨1, "Eve", "eve@y.org", "123", 1, 1⟩ := by
  decide

/-- C8 (the code at the failing input). After `CreateContact` and a failed `UpdateContact`
with an empty name, `GetByID(1)` and `GetAll` return a contact that `Validate` refuses. -/
theorem C8_stored_contact_fails_validate :
    (serviceRun (World.fresh Heap.empty)
      [.createContact 1 "Ada Lovelace" "a@x.com" "",
        .updateContact 2 1 "" "a@x.com" ""]).record 1 =
      some ⟨1, "", "a@x.com", "", 1, 1⟩ ∧
    (serviceRun (World.fresh Heap.empty)
      [.createContact 1 "Ada Lovelace" "a@x.com" "",
        .updateContact 2 1 "" "a@x.com" ""]).records = [⟨1, "", "a@x.com", "", 1, 1⟩] ∧
    (service.UpdateContact (memoryRepo 2) adaWorld.heap adaWorld.store 1 "" "a@x.com" "").ret =
      .error .nameEmpty ∧
    (⟨1, "", "a@x.com", "", 1, 1⟩ : Contact).Validate = some .nameEmpty := by
  decide


/-! ## E-mail uniqueness through the service -/

theorem mem_mapSet {l : List (Nat × Ptr)} {id : Nat} {p : Ptr} {e : Nat × Ptr}
    (hnd : (l.map Prod.fst).Nodup) (hmem : e ∈ mapSet l id p) :
    e = (id, p) ∨ (e ∈ l ∧ e.1 ≠ id) := by
  induction l with
  | nil =>
    simp [mapSet] at hmem
    exact Or.inl hmem
  | cons x rest ih =>
    obtain ⟨a, v⟩ := x
    simp only [List.map_cons, List.nodup_cons] at hnd
    by_cases ha : a = id
    · subst ha
      simp only [mapSet, if_true, List.mem_cons] at hmem
      rcases hmem with h1 | h1
      · exact Or.inl h1
      · refine Or.inr ⟨List.mem_cons_of_mem _ h1, fun he => hnd.1 ?_⟩
        rw [← he]
        exact List.mem_map_of_mem Prod.fst h1
    · simp only [mapSet, ha, if_false, List.mem_cons] at hmem
      rcases hmem with h1 | h1
      · right
        subst h1
        exact ⟨List.mem_cons_self _ _, ha⟩
      · rcases ih hnd.2 h1 with h2 | h2
        · exact Or.inl h2
        · exact Or.inr ⟨List.mem_cons_of_mem _ h2.1, h2.2⟩

theorem nodup_keys_mapSet {l : List (Nat × Ptr)} (id : Nat) (p : Ptr)
    (hnd : (l.map Prod.fst).Nodup) : ((mapSet l id p).map Prod.fst).Nodup := by
  induction l with
  | nil => simp [mapSet]
  | cons x rest ih =>
    obtain ⟨a, v⟩ := x
    have hnd2 := hnd
    simp only [List.map_cons, List.nodup_cons] at hnd2
    by_cases ha : a = id
    · subst ha
      simpa [mapSet] using hnd
    · simp only [mapSet, ha, if_false, List.map_cons, List.nodup_cons]
      refine ⟨fun hin => ?_, ih hnd2.2⟩
      obtain ⟨e, he, hk⟩ := List.mem_map.mp hin
      rcases mem_mapSet hnd2.2 he with h1 | h1
      · rw [h1] at hk
        exact ha hk.symm
      · exact hnd2.1 (hk ▸ List.mem_map_of_mem Prod.fst h1.1)

theorem findByEmail_some {h : Heap} {l : List (Nat × Ptr)} {email : String} {p : Ptr}
    (hfind : findByEmail h l email = some p) :
    ∃ k, (k, p) ∈ l ∧ (h.cell p).Email = email := by
  induction l with
  | nil => simp [findByEmail] at hfind
  | cons x rest ih =>
    obtain ⟨a, v⟩ := x
    by_cases hv : (h.cell v).Email = email
    · simp only [findByEmail, hv, if_true, Option.some.injEq] at hfind
      subst hfind
      exact ⟨a, List.mem_cons_self _ _, hv⟩
    · simp only [findByEmail, hv, if_false] at hfind
      obtain ⟨k, hk, he⟩ := ih hfind
      exact ⟨k, List.mem_cons_of_mem _ hk, he⟩

theorem findByEmail_none {h : Heap} {l : List (Nat × Ptr)} {email : String}
    (hfind : findByEmail h l email = none) :
    ∀ e ∈ l, (h.cell e.2).Email ≠ email := by
  induction l with
  | nil => simp
  | cons x rest ih =>
    obtain ⟨a, v⟩ := x
    by_cases hv : (h.cell v).Email = email
    · simp [findByEmail, hv] at hfind
    · simp only [findByEmail, hv, if_false] at hfind
      intro e he
      rcases List.mem_cons.mp he with h1 | h1
      · subst h1
        exact hv
      · exact ih hfind e h1

/-- The invariant holds of every fresh store. -/
theorem WF_fresh (h : Heap) : WF (World.fresh h) :=
  ⟨by simp [World.fresh, NewMemoryStore], by simp [World.fresh, NewMemoryStore],
    by simp [World.fresh, NewMemoryStore], by simp [World.fresh, NewMemoryStore]⟩

/-- Allocating an object keeps the invariant: no stored pointer is the new address. -/
theorem WF_new {h : Heap} {m : MemoryStore} (hwf : WF ⟨h, m⟩) (c : Contact) :
    WF ⟨(h.new c).1, m⟩ := by
  have hcell : ∀ e ∈ m.contacts, (h.new c).1.cell e.2 = h.cell e.2 := by
    intro e he
    have hlt : e.2 < h.brk := hwf.alloc e he
    simp only [Heap.new]
    exact Function.update_noteq (Nat.ne_of_lt hlt) _ _
  refine ⟨hwf.keys, ?_, ?_, ?_⟩
  · intro e he
    simp only at he ⊢
    rw [hcell e he]
    exact hwf.keyID e he
  · intro e he
    have hlt : e.2 < h.brk := hwf.alloc e he
    exact Nat.lt_succ_of_lt hlt
  · intro e1 h1 e2 h2
    simp only at h1 h2 ⊢
    rw [hcell e1 h1, hcell e2 h2]
    exact hwf.emails e1 h1 e2 h2

/-- Storing a new object whose e-mail no stored contact has, under the key equal to its `ID`,
keeps the invariant. -/
theorem WF_insert {h : Heap} {m : MemoryStore} (hwf : WF ⟨h, m⟩) (c : Contact) (n : Nat)
    (hemail : ∀ e ∈ m.contacts, (h.cell e.2).Email ≠ c.Email) :
    WF ⟨⟨Function.update h.cell h.brk c, h.brk + 1⟩, ⟨mapSet m.contacts c.ID h.brk, n⟩⟩ := by
  have hold : ∀ e ∈ m.contacts, Function.update h.cell h.brk c e.2 = h.cell e.2 := by
    intro e he
    have hlt : e.2 < h.brk := hwf.alloc e he
    exact Function.update_noteq (Nat.ne_of_lt hlt) _ _
  have hkeys : (m.contacts.map Prod.fst).Nodup := hwf.keys
  refine ⟨nodup_keys_mapSet _ _ hkeys, ?_, ?_, ?_⟩
  · intro e he
    rcases mem_mapSet hkeys he with h1 | h1
    · subst h1
      simp
    · simp only
      rw [hold e h1.1]
      exact hwf.keyID e h1.1
  · intro e he
    rcases mem_mapSet hkeys he with h1 | h1
    · subst h1
      simp
    · have hlt : e.2 < h.brk := hwf.alloc e h1.1
      exact Nat.lt_succ_of_lt hlt
  · intro e1 he1 e2 he2 heq
    simp only at heq
    rcases mem_mapSet hkeys he1 with h1 | h1 <;> rcases mem_mapSet hkeys he2 with h2 | h2
    · rw [h1, h2]
    · subst h1
      rw [hold e2 h2.1] at heq
      simp only [Function.update_same] at heq
      exact absurd heq.symm (hemail e2 h2.1)
    · subst h2
      rw [hold e1 h1.1] at heq
      simp only [Function.update_same] at heq
      exact absurd heq (hemail e1 h1.1)
    · rw [hold e1 h1.1, hold e2 h2.1] at heq
      exact hwf.emails e1 h1.1 e2 h2.1 heq

/-- Two entries with the same pointer are the same entry. -/
theorem WF.ptr_inj {w : World} (hwf : WF w) {e1 e2 : Nat × Ptr} (h1 : e1 ∈ w.store.contacts)
    (h2 : e2 ∈ w.store.contacts) (hp : e1.2 = e2.2) : e1 = e2 :=
  hwf.emails e1 h1 e2 h2 (by rw [hp])

/-- Assigning to a stored object keeps the invariant when the `ID` is kept and the new e-mail
is the old one or an e-mail that no stored contact has. -/
theorem WF_write {h : Heap} {m : MemoryStore} (hwf : WF ⟨h, m⟩) {id : Nat} {p : Ptr}
    (hmem : (id, p) ∈ m.contacts) (c : Contact) (hid : c.ID = (h.cell p).ID)
    (hemail : c.Email = (h.cell p).Email ∨ ∀ e ∈ m.contacts, (h.cell e.2).Email ≠ c.Email) :
    WF ⟨h.write p c, m⟩ := by
  have hcell : ∀ q, (h.write p c).cell q = if q = p then c else h.cell q := by
    intro q
    by_cases hq : q = p
    · subst hq
      simp [Heap.write]
    · simp [Heap.write, Function.update_noteq hq, hq]
  refine ⟨hwf.keys, ?_, hwf.alloc, ?_⟩
  · intro e he
    simp only at he ⊢
    rw [hcell]
    by_cases hq : e.2 = p
    · simp only [hq, if_true, hid]
      rw [← hq]
      exact hwf.keyID e he
    · simp only [hq, if_false]
      exact hwf.keyID e he
  · intro e1 h1 e2 h2 heq
    simp only at h1 h2 heq
    rw [hcell, hcell] at heq
    by_cases hq1 : e1.2 = p <;> by_cases hq2 : e2.2 = p
    · exact hwf.ptr_inj h1 h2 (hq1.trans hq2.symm)
    · simp only [hq1, hq2, if_true, if_false] at heq
      rcases hemail with hsame | hnew
      · have := hwf.emails e1 h1 e2 h2 (by simp only; rw [hq1, ← hsame, heq])
        exact absurd (this ▸ hq1) hq2
      · exact absurd heq.symm (hnew e2 h2)
    · simp only [hq1, hq2, if_true, if_false] at heq
      rcases hemail with hsame | hnew
      · have := hwf.emails e1 h1 e2 h2 (by simp only; rw [hq2, ← hsame, heq])
        exact absurd (this ▸ hq2) hq1
      · exact absurd heq (hnew e1 h1)
    · simp only [hq1, hq2, if_false] at heq
      exact hwf.emails e1 h1 e2 h2 heq

/-- Removing a key keeps the invariant. -/
theorem WF_delete {h : Heap} {m : MemoryStore} (hwf : WF ⟨h, m⟩) (id : Nat) :
    WF ⟨h, { m with contacts := mapDelete m.contacts id }⟩ := by
  refine ⟨?_, ?_, ?_, ?_⟩
  · have hsub : (mapDelete m.contacts id).Sublist m.contacts := List.filter_sublist _
    exact (hsub.map Prod.fst).nodup hwf.keys
  · intro e he
    exact hwf.keyID e (mem_mapDelete.mp he).1
  · intro e he
    exact hwf.alloc e (mem_mapDelete.mp he).1
  · intro e1 h1 e2 h2
    exact hwf.emails e1 (mem_mapDelete.mp h1).1 e2 (mem_mapDelete.mp h2).1

/-- Visiting the entries in another order keeps the invariant. -/
theorem WF_rehash {h : Heap} {m : MemoryStore} (hwf : WF ⟨h, m⟩) {entries : List (Nat × Ptr)}
    (hperm : entries.Perm m.contacts) : WF ⟨h, { m with contacts := entries }⟩ := by
  refine ⟨?_, ?_, ?_, ?_⟩
  · exact (hperm.map Prod.fst).nodup_iff.mpr hwf.keys
  · intro e he
    exact hwf.keyID e (hperm.mem_iff.mp he)
  · intro e he
    exact hwf.alloc e (hperm.mem_iff.mp he)
  · intro e1 h1 e2 h2
    exact hwf.emails e1 (hperm.mem_iff.mp h1) e2 (hperm.mem_iff.mp h2)


theorem Heap.write_write (h : Heap) (p : Ptr) (a b : Contact) :
    (h.write p a).write p b = h.write p b := by
  simp [Heap.write]

theorem Heap.cell_write_self (h : Heap) (p : Ptr) (a : Contact) : (h.write p a).cell p = a := by
  simp [Heap.write]

/-- Method `service.CreateContact` keeps the invariant, whether it succeeds or fails. -/
theorem WF_createContact {h : Heap} {m : MemoryStore} (hwf : WF ⟨h, m⟩) (now : Time)
    (name email phone : String) :
    WF (service.CreateContact (memoryRepo now) h m name email phone).world := by
  cases hfind : findByEmail h m.contacts email with
  | some q =>
    simpa [service.CreateContact, memoryRepo, MemoryStore.GetByEmail, hfind, Res.world]
      using hwf
  | none =>
    cases hv : (Contact.Validate ⟨0, name, email, phone, 0, 0⟩) with
    | some err =>
      have hnew := WF_new hwf ⟨0, name, email, phone, 0, 0⟩
      simpa [service.CreateContact, memoryRepo, MemoryStore.GetByEmail, hfind, Res.world,
        MemoryStore.Create, Heap.new, hv] using hnew
    | none =>
      have hins := WF_insert hwf ⟨m.nextID, name, email, phone, now, now⟩
        ((m.nextID + 1) % uintMod) (findByEmail_none hfind)
      simpa [service.CreateContact, memoryRepo, MemoryStore.GetByEmail, hfind, Res.world,
        MemoryStore.Create, Heap.new, hv, Heap.write] using hins

/-- The second half of `UpdateContact` (assign the three fields, then `repo.Update`) keeps the
invariant when the new e-mail is the old one or is held by no stored contact. -/
theorem WF_assign_update {h : Heap} {m : MemoryStore} (hwf : WF ⟨h, m⟩) (now : Time)
    {id : Nat} {p : Ptr} (hget : mapGet m.contacts id = some p) (name email phone : String)
    (hemail : email = (h.cell p).Email ∨ ∀ e ∈ m.contacts, (h.cell e.2).Email ≠ email) :
    WF (MemoryStore.Update now
      (h.write p { h.cell p with Name := name, Email := email, Phone := phone }) m p).world := by
  have hmem := mapGet_mem hget
  have hID : (h.cell p).ID = id := hwf.keyID _ hmem
  have hget2 : mapGet m.contacts (h.cell p).ID = some p := by rw [hID]; exact hget
  cases hv : (Contact.Validate { h.cell p with Name := name, Email := email, Phone := phone }) with
  | some err =>
    have hw := WF_write hwf hmem { h.cell p with Name := name, Email := email, Phone := phone }
      rfl hemail
    simpa [MemoryStore.Update, Heap.cell_write_self, hget2, hv, Res.world] using hw
  | none =>
    have hw := WF_write hwf hmem
      { h.cell p with Name := name, Email := email, Phone := phone, UpdatedAt := now }
      rfl hemail
    simpa [MemoryStore.Update, Heap.cell_write_self, hget2, hv, Res.world, Heap.write_write,
      mapSet_of_mapGet hget2] using hw

/-- Method `service.UpdateContact` keeps the invariant, whether it succeeds or fails. -/
theorem WF_updateContact {h : Heap} {m : MemoryStore} (hwf : WF ⟨h, m⟩) (now : Time) (id : Nat)
    (name email phone : String) :
    WF (service.UpdateContact (memoryRepo now) h m id name email phone).world := by
  cases hget : mapGet m.contacts id with
  | none =>
    simpa [service.UpdateContact, memoryRepo, MemoryStore.GetByID, hget, Res.world] using hwf
  | some p =>
    have hmem := mapGet_mem hget
    by_cases hem : email = (h.cell p).Email
    · have htail := WF_assign_update hwf now hget name email phone (Or.inl hem)
      simp only [service.UpdateContact, memoryRepo, MemoryStore.GetByID, hget, emailConflict,
        hem, ne_eq, not_true_eq_false, if_false, Bool.false_eq_true, Res.world] at htail ⊢
      split <;> exact htail
    · cases hfind : findByEmail h m.contacts email with
      | some q =>
        obtain ⟨k, hk, hq⟩ := findByEmail_some hfind
        have hkid : (h.cell q).ID ≠ id := by
          intro hcontra
          have hkq : (h.cell q).ID = k := hwf.keyID _ hk
          have hget3 : mapGet m.contacts id = some q := by
            rw [← hcontra, hkq]
            exact mapGet_of_mem hwf.keys hk
          rw [hget] at hget3
          simp only [Option.some.injEq] at hget3
          exact hem (by rw [hget3, hq])
        simpa [service.UpdateContact, memoryRepo, MemoryStore.GetByID, hget, emailConflict,
          hem, MemoryStore.GetByEmail, hfind, hkid, Res.world] using hwf
      | none =>
        have htail := WF_assign_update hwf now hget name email phone
          (Or.inr (findByEmail_none hfind))
        simp only [service.UpdateContact, memoryRepo, MemoryStore.GetByID, hget,
          emailConflict, hem, ne_eq, not_false_eq_true, if_true, MemoryStore.GetByEmail, hfind,
          Bool.false_eq_true, if_false, Res.world] at htail ⊢
        split <;> exact htail

/-- Method `service.DeleteContact` keeps the invariant, whether it succeeds or fails. -/
theorem WF_deleteContact {h : Heap} {m : MemoryStore} (hwf : WF ⟨h, m⟩) (now : Time)
    (id : Nat) : WF (service.DeleteContact (memoryRepo now) h m id).world := by
  cases hget : mapGet m.contacts id with
  | none =>
    simpa [service.DeleteContact, memoryRepo, MemoryStore.GetByID, hget, Res.world] using hwf
  | some p =>
    simpa [service.DeleteContact, memoryRepo, MemoryStore.GetByID, hget, Res.world,
      MemoryStore.Delete] using WF_delete hwf id

/-- Every service call keeps the invariant. -/
theorem WF_serviceStep {w : World} (hwf : WF w) (call : ServiceCall) :
    WF (serviceStep w call) := by
  obtain ⟨h, m⟩ := w
  cases call with
  | createContact now name email phone => exact WF_createContact hwf now name email phone
  | updateContact now id name email phone => exact WF_updateContact hwf now id name email phone
  | deleteContact now id => exact WF_deleteContact hwf now id
  | rehash entries =>
    simp only [serviceStep]
    split
    · next hperm => exact WF_rehash hwf hperm
    · exact hwf

/-- The invariant holds after every sequence of service calls on a store that satisfies it. -/
theorem WF_serviceRun (calls : List ServiceCall) :
    ∀ {w : World}, WF w → WF (serviceRun w calls) := by
  induction calls with
  | nil => exact fun hwf => hwf
  | cons call rest ih => exact fun hwf => ih (WF_serviceStep hwf call)

/-- C5. Starting from an empty in-memory store in any heap, after every finite sequence of
`CreateContact`, `UpdateContact` and `DeleteContact` calls (successful or failed, with the
map visited in any order), two contacts stored under different IDs carry those IDs in their
`ID` fields and have different `Email` strings. -/
theorem C5_email_unique (h : Heap) (calls : List ServiceCall) (id1 id2 : Nat)
    (c1 c2 : Contact)
    (h1 : (serviceRun (World.fresh h) calls).record id1 = some c1)
    (h2 : (serviceRun (World.fresh h) calls).record id2 = some c2)
    (hne : id1 ≠ id2) : c1.ID = id1 ∧ c2.ID = id2 ∧ c1.Email ≠ c2.Email := by
  have hwf := WF_serviceRun calls (WF_fresh h)
  generalize serviceRun (World.fresh h) calls = w at hwf h1 h2
  simp only [World.record, MemoryStore.GetByID] at h1 h2
  cases hg1 : mapGet w.store.contacts id1 with
  | none => simp [hg1] at h1
  | some p1 =>
    cases hg2 : mapGet w.store.contacts id2 with
    | none => simp [hg2] at h2
    | some p2 =>
      simp only [hg1, Option.some.injEq] at h1
      simp only [hg2, Option.some.injEq] at h2
      refine ⟨?_, ?_, ?_⟩
      · rw [← h1]
        exact hwf.keyID _ (mapGet_mem hg1)
      · rw [← h2]
        exact hwf.keyID _ (mapGet_mem hg2)
      · intro heq
        have := hwf.emails _ (mapGet_mem hg1) _ (mapGet_mem hg2)
          (by simp only; rw [h1, h2, heq])
        simp only [Prod.mk.injEq] at this
        exact hne this.1

/-- C5 applies to the store holding two contacts: their e-mails differ. -/
theorem C5_email_unique_witness :
    adaBobWorld.record 1 = some ⟨1, "Ada Lovelace", "a@x.com", "", 1, 1⟩ ∧
    adaBobWorld.record 2 = some ⟨2, "Bob", "bob@x.com", "", 2, 2⟩ ∧ (1 : Nat) ≠ 2 ∧
    ("a@x.com" : String) ≠ "bob@x.com" :=
  ⟨by decide, by decide, by decide,
    (C5_email_unique Heap.empty
      [.createContact 1 "Ada Lovelace" "a@x.com" "", .createContact 2 "Bob" "bob@x.com" ""]
      1 2 ⟨1, "Ada Lovelace", "a@x.com", "", 1, 1⟩ ⟨2, "Bob", "bob@x.com", "", 2, 2⟩
      (by decide) (by decide) (by decide)).2.2⟩

/-! ## Failed updates -/

/-- The errors of `Validate` are the four validation errors. -/
theorem validate_isValidation {c : Contact} {err : Error} (hv : c.Validate = some err) :
    err.isValidation = true := by
  unfold Contact.Validate at hv
  split_ifs at hv <;> simp only [Option.some.injEq] at hv <;> subst hv <;> rfl

theorem memoryRepo_GetByID (now : Time) : (memoryRepo now).GetByID = MemoryStore.GetByID := rfl

theorem memoryRepo_Update (now : Time) : (memoryRepo now).Update = MemoryStore.Update now := rfl

/-- The e-mail check of `UpdateContact` changes neither the heap nor the store. -/
theorem emailConflict_state (now : Time) (h : Heap) (m : MemoryStore) (p : Ptr) (id : Nat)
    (email : String) :
    (emailConflict (memoryRepo now) h m p id email).heap = h ∧
    (emailConflict (memoryRepo now) h m p id email).store = m := by
  by_cases hem : email = (h.cell p).Email
  · simp [emailConflict, hem]
  · cases hfind : findByEmail h m.contacts email <;>
      simp [emailConflict, hem, memoryRepo, MemoryStore.GetByEmail, hfind]

/-- An error of `MemoryStore.Update` is "contact not found" or a validation error. -/
theorem memoryUpdate_error {now : Time} {h : Heap} {m : MemoryStore} {c : Ptr} {err : Error}
    (hret : (MemoryStore.Update now h m c).ret = some err) :
    err = .contactNotFound ∨ err.isValidation = true := by
  cases hget : mapGet m.contacts (h.cell c).ID with
  | none =>
    simp only [MemoryStore.Update, hget, Option.some.injEq] at hret
    exact Or.inl hret.symm
  | some q =>
    cases hv : (h.cell c).Validate with
    | none => simp [MemoryStore.Update, hget, hv] at hret
    | some e =>
      simp only [MemoryStore.Update, hget, hv, Option.some.injEq] at hret
      subst hret
      exact Or.inr (validate_isValidation hv)

/-- When `UpdateContact` fails because the ID is absent or because another contact has the
e-mail, the heap and the store are as before the call. -/
theorem updateContact_unchanged_of_notFound_or_conflict (now : Time) (h : Heap)
    (m : MemoryStore) (id : Nat) (name email phone : String) (err : Error)
    (hret : (service.UpdateContact (memoryRepo now) h m id name email phone).ret = .error err)
    (hkind : err = .anotherEmailExists ∨ ∃ e, err = .wrapNotFound e) :
    (service.UpdateContact (memoryRepo now) h m id name email phone).heap = h ∧
    (service.UpdateContact (memoryRepo now) h m id name email phone).store = m := by
  have hnv : ¬ err.isValidation = true := by
    rcases hkind with hk | ⟨e, hk⟩ <;> subst hk <;> simp [Error.isValidation]
  have hnc : err ≠ .contactNotFound := by
    rcases hkind with hk | ⟨e, hk⟩ <;> subst hk <;> simp
  cases hget : mapGet m.contacts id with
  | none => simp [service.UpdateContact, memoryRepo, MemoryStore.GetByID, hget]
  | some p =>
    have hst := emailConflict_state now h m p id email
    cases hc : (emailConflict (memoryRepo now) h m p id email).ret with
    | true =>
      simpa [service.UpdateContact, memoryRepo_GetByID, MemoryStore.GetByID, hget, hc]
        using hst
    | false =>
      exfalso
      simp only [service.UpdateContact, memoryRepo_GetByID, memoryRepo_Update,
        MemoryStore.GetByID, hget, hc, Bool.false_eq_true, if_false] at hret
      split at hret
      · next e herr =>
        simp only [Except.error.injEq] at hret
        subst hret
        rcases memoryUpdate_error herr with h1 | h1
        · exact hnc h1
        · exact hnv h1
      · simp at hret


/-! ## The rules of the service (`service.go`) -/

theorem memoryRepo_GetByEmail (now : Time) :
    (memoryRepo now).GetByEmail = MemoryStore.GetByEmail := rfl

theorem memoryRepo_Create (now : Time) : (memoryRepo now).Create = MemoryStore.Create now := rfl

/-- With an existing ID, `UpdateContact` returns the conflict error exactly when its e-mail
check says so. -/
theorem updateContact_conflict_iff_check (now : Time) (h : Heap) (m : MemoryStore) (id : Nat)
    (p : Ptr) (name email phone : String) (hget : mapGet m.contacts id = some p) :
    (service.UpdateContact (memoryRepo now) h m id name email phone).ret =
        .error .anotherEmailExists ↔
      (emailConflict (memoryRepo now) h m p id email).ret = true := by
  cases hc : (emailConflict (memoryRepo now) h m p id email).ret with
  | true =>
    simp [service.UpdateContact, memoryRepo_GetByID, MemoryStore.GetByID, hget, hc]
  | false =>
    simp only [service.UpdateContact, memoryRepo_GetByID, memoryRepo_Update,
      MemoryStore.GetByID, hget, hc, Bool.false_eq_true, if_false, iff_false]
    intro hret
    split at hret
    · next e herr =>
      simp only [Except.error.injEq] at hret
      subst hret
      rcases memoryUpdate_error herr with h1 | h1
      · exact Error.noConfusion h1
      · simp [Error.isValidation] at h1
    · simp at hret

/-- In a store where every contact is stored under its own ID and e-mails are pairwise
distinct, the e-mail check of `UpdateContact` finds a conflict exactly when a stored contact
with another ID has the e-mail. -/
theorem emailConflict_iff (now : Time) (h : Heap) (m : MemoryStore) (id : Nat) (p : Ptr)
    (email : String)
    (hkeys : (m.contacts.map Prod.fst).Nodup)
    (hkeyID : ∀ e ∈ m.contacts, (h.cell e.2).ID = e.1)
    (hemails : ∀ e1 ∈ m.contacts, ∀ e2 ∈ m.contacts,
      (h.cell e1.2).Email = (h.cell e2.2).Email → e1 = e2)
    (hget : mapGet m.contacts id = some p) :
    (emailConflict (memoryRepo now) h m p id email).ret = true ↔
      ∃ e ∈ m.contacts, (h.cell e.2).ID ≠ id ∧ (h.cell e.2).Email = email := by
  have hmem := mapGet_mem hget
  have hID : (h.cell p).ID = id := hkeyID _ hmem
  by_cases hem : email = (h.cell p).Email
  · simp only [emailConflict, hem, ne_eq, not_true_eq_false, if_false, Bool.false_eq_true,
      false_iff]
    rintro ⟨e, he, hne, heq⟩
    have := hemails e he (id, p) hmem heq
    subst this
    exact hne hID
  · cases hfind : findByEmail h m.contacts email with
    | some q =>
      obtain ⟨k, hk, hq⟩ := findByEmail_some hfind
      have hkq : (h.cell q).ID = k := hkeyID _ hk
      have hne : (h.cell q).ID ≠ id := by
        intro hcontra
        have hget2 : mapGet m.contacts id = some q := by
          rw [← hcontra, hkq]
          exact mapGet_of_mem hkeys hk
        rw [hget] at hget2
        simp only [Option.some.injEq] at hget2
        exact hem (by rw [hget2, hq])
      simp only [emailConflict, hem, ne_eq, not_false_eq_true, if_true, memoryRepo_GetByEmail,
        MemoryStore.GetByEmail, hfind, hne, decide_True, true_iff]
      exact ⟨(k, q), hk, hne, hq⟩
    | none =>
      simp only [emailConflict, hem, ne_eq, not_false_eq_true, if_true, memoryRepo_GetByEmail,
        MemoryStore.GetByEmail, hfind, Bool.false_eq_true, false_iff]
      rintro ⟨e, he, -, heq⟩
      exact findByEmail_none hfind e he heq

/-- C11. In an in-memory store where every contact is stored under its own ID and the e-mails
are pairwise distinct, `UpdateContact` of an existing ID returns the e-mail conflict error
exactly when a stored contact with another ID has the given e-mail. So the contact's own
current e-mail never conflicts, and the e-mail of any other stored contact always does. -/
theorem C11_update_conflict_iff (now : Time) (h : Heap) (m : MemoryStore) (id : Nat) (p : Ptr)
    (name email phone : String)
    (hkeys : (m.contacts.map Prod.fst).Nodup)
    (hkeyID : ∀ e ∈ m.contacts, (h.cell e.2).ID = e.1)
    (hemails : ∀ e1 ∈ m.contacts, ∀ e2 ∈ m.contacts,
      (h.cell e1.2).Email = (h.cell e2.2).Email → e1 = e2)
    (hget : (MemoryStore.GetByID h m id).ret = .ok p) :
    ((service.UpdateContact (memoryRepo now) h m id name email phone).ret =
        .error .anotherEmailExists ↔
      ∃ e ∈ m.contacts, (h.cell e.2).ID ≠ id ∧ (h.cell e.2).Email = email) ∧
    (service.UpdateContact (memoryRepo now) h m id name (h.cell p).Email phone).ret ≠
      .error .anotherEmailExists ∧
    (∀ e ∈ m.contacts, (h.cell e.2).ID ≠ id →
      (service.UpdateContact (memoryRepo now) h m id name (h.cell e.2).Email phone).ret =
        .error .anotherEmailExists) := by
  have hget2 : mapGet m.contacts id = some p := by
    cases hg : mapGet m.contacts id with
    | none => simp [MemoryStore.GetByID, hg] at hget
    | some q =>
      simp only [MemoryStore.GetByID, hg, Except.ok.injEq] at hget
      rw [hget]
  have hiff : ∀ em : String,
      (service.UpdateContact (memoryRepo now) h m id name em phone).ret =
          .error .anotherEmailExists ↔
        ∃ e ∈ m.contacts, (h.cell e.2).ID ≠ id ∧ (h.cell e.2).Email = em := fun em =>
    (updateContact_conflict_iff_check now h m id p name em phone hget2).trans
      (emailConflict_iff now h m id p em hkeys hkeyID hemails hget2)
  refine ⟨hiff email, ?_, ?_⟩
  · rw [Ne, hiff]
    rintro ⟨e, he, hne, heq⟩
    have := hemails e he (id, p) (mapGet_mem hget2) heq
    subst this
    exact hne (hkeyID _ (mapGet_mem hget2))
  · intro e he hne
    exact (hiff _).mpr ⟨e, he, hne, rfl⟩

/-- C11 applies to the store that holds Ada under ID 1 and Bob under ID 2: updating contact 1
with Bob's e-mail conflicts, with its own e-mail it does not. -/
theorem C11_update_conflict_iff_witness :
    (adaBobWorld.store.contacts.map Prod.fst).Nodup ∧
    (MemoryStore.GetByID adaBobWorld.heap adaBobWorld.store 1).ret = .ok 0 ∧
    (service.UpdateContact (memoryRepo 3) adaBobWorld.heap adaBobWorld.store 1 "Ada"
      "bob@x.com" "").ret = .error .anotherEmailExists ∧
    (service.UpdateContact (memoryRepo 3) adaBobWorld.heap adaBobWorld.store 1 "Ada"
      "a@x.com" "").ret ≠ .error .anotherEmailExists :=
  ⟨by decide, by decide,
    (C11_update_conflict_iff 3 adaBobWorld.heap adaBobWorld.store 1 0 "Ada" "bob@x.com" ""
      (by decide) (by decide) (by decide) (by decide)).2.2 (2, 1) (by decide) (by decide),
    (C11_update_conflict_iff 3 adaBobWorld.heap adaBobWorld.store 1 0 "Ada" "bob@x.com" ""
      (by decide) (by decide) (by decide) (by decide)).2.1⟩

/-- The loop of `GetByEmail` finds a contact exactly when some stored contact has the
e-mail. -/
theorem findByEmail_isSome_iff (h : Heap) (l : List (Nat × Ptr)) (email : String) :
    (∃ p, findByEmail h l email = some p) ↔ ∃ e ∈ l, (h.cell e.2).Email = email := by
  constructor
  · rintro ⟨p, hp⟩
    obtain ⟨k, hk, he⟩ := findByEmail_some hp
    exact ⟨(k, p), hk, he⟩
  · rintro ⟨e, he, heq⟩
    cases hfind : findByEmail h l email with
    | some p => exact ⟨p, rfl⟩
    | none => exact absurd heq (findByEmail_none hfind e he)

/-- C12. If some stored contact has exactly the given e-mail, `CreateContact` returns the
duplicate-email error and leaves the heap and the store (entries and counter) unchanged.
Otherwise it allocates a contact with the three fields and its heap, store and result are
those of the backend's `Create` on that contact: the error of `Create`, or the new pointer. -/
theorem C12_createContact (now : Time) (h : Heap) (m : MemoryStore)
    (name email phone : String) :
    ((∃ e ∈ m.contacts, (h.cell e.2).Email = email) →
      (service.CreateContact (memoryRepo now) h m name email phone).ret = .error .emailExists ∧
      (service.CreateContact (memoryRepo now) h m name email phone).heap = h ∧
      (service.CreateContact (memoryRepo now) h m name email phone).store = m) ∧
    ((¬ ∃ e ∈ m.contacts, (h.cell e.2).Email = email) →
      (service.CreateContact (memoryRepo now) h m name email phone).heap =
        (MemoryStore.Create now (h.new ⟨0, name, email, phone, 0, 0⟩).1 m
          (h.new ⟨0, name, email, phone, 0, 0⟩).2).heap ∧
      (service.CreateContact (memoryRepo now) h m name email phone).store =
        (MemoryStore.Create now (h.new ⟨0, name, email, phone, 0, 0⟩).1 m
          (h.new ⟨0, name, email, phone, 0, 0⟩).2).store ∧
      (service.CreateContact (memoryRepo now) h m name email phone).ret =
        match (MemoryStore.Create now (h.new ⟨0, name, email, phone, 0, 0⟩).1 m
          (h.new ⟨0, name, email, phone, 0, 0⟩).2).ret with
        | some err => .error err
        | none => .ok (h.new ⟨0, name, email, phone, 0, 0⟩).2) := by
  constructor
  · intro hex
    obtain ⟨p, hp⟩ := (findByEmail_isSome_iff h m.contacts email).mpr hex
    simp [service.CreateContact, memoryRepo_GetByEmail, MemoryStore.GetByEmail, hp]
  · intro hnex
    have hfind : findByEmail h m.contacts email = none := by
      cases hf : findByEmail h m.contacts email with
      | none => rfl
      | some p => exact absurd ((findByEmail_isSome_iff h m.contacts email).mp ⟨p, hf⟩) hnex
    simp only [service.CreateContact, memoryRepo_GetByEmail, memoryRepo_Create,
      MemoryStore.GetByEmail, hfind]
    cases (MemoryStore.Create now (h.new ⟨0, name, email, phone, 0, 0⟩).1 m
      (h.new ⟨0, name, email, phone, 0, 0⟩).2).ret <;> exact ⟨rfl, rfl, rfl⟩

/-- C12 applies to the store that holds "a@x.com": that e-mail is refused, and "eve@x.com" is
created under ID 2. -/
theorem C12_createContact_witness :
    (∃ e ∈ adaWorld.store.contacts, (adaWorld.heap.cell e.2).Email = "a@x.com") ∧
    (¬ ∃ e ∈ adaWorld.store.contacts, (adaWorld.heap.cell e.2).Email = "eve@x.com") ∧
    (service.CreateContact (memoryRepo 2) adaWorld.heap adaWorld.store "Eve" "a@x.com"
      "").ret = .error .emailExists ∧
    (service.CreateContact (memoryRepo 2) adaWorld.heap adaWorld.store "Eve" "eve@x.com"
      "").ret = .ok 1 :=
  ⟨by decide, by decide,
    ((C12_createContact 2 adaWorld.heap adaWorld.store "Eve" "a@x.com" "").1 (by decide)).1,
    ((C12_createContact 2 adaWorld.heap adaWorld.store "Eve" "eve@x.com" "").2
      (by decide)).2.2⟩


/-- C13 (the code at the failing input). With a repository whose `GetByEmail` returns an
engine error (not a not-found error), `CreateContact` discards the error and returns the new
contact, although a stored contact has the same e-mail; `UpdateContact` discards it as well
and gives contact 1 the e-mail of contact 2. -/
theorem C13_lookup_error_is_discarded :
    ((flakyLookupRepo 2).GetByEmail adaWorld.heap adaWorld.store "a@x.com").ret =
      .error .engine ∧
    Error.engine.isNotFound = false ∧
    (service.CreateContact (flakyLookupRepo 2) adaWorld.heap adaWorld.store "Eve" "a@x.com"
      "").ret = .ok 1 ∧
    (service.CreateContact (flakyLookupRepo 2) adaWorld.heap adaWorld.store "Eve" "a@x.com"
      "").world.record 2 = some ⟨2, "Eve", "a@x.com", "", 2, 2⟩ ∧
    (service.UpdateContact (flakyLookupRepo 3) adaBobWorld.heap adaBobWorld.store 1 "Ada"
      "bob@x.com" "").ret = .ok 0 := by
  decide

/-! ## More on the in-memory store (`memory.go`) -/

/-- C14 (counterexample). Contact 1 was created at time 1. `Update` with a replacement object
for ID 1 whose `CreatedAt` is the zero time succeeds, and the record stored under ID 1
afterwards has `CreatedAt` 0, not 1. -/
theorem C14_counterexample :
    adaWorld.record 1 = some ⟨1, "Ada Lovelace", "a@x.com", "", 1, 1⟩ ∧
    (replacementHeap.cell 1).ID = 1 ∧
    (MemoryStore.Update 9 replacementHeap adaWorld.store 1).ret = none ∧
    (MemoryStore.Update 9 replacementHeap adaWorld.store 1).world.record 1 =
      some ⟨1, "Ada King", "ada@y.org", "", 0, 9⟩ ∧
    (0 : Time) ≠ 1 := by
  decide

/-- C14 (amended). After a successful `MemoryStore.Update(c)`, the record stored under `c.ID`
is the object `c` itself, with `UpdatedAt` the time of the update and every other field,
`ID` and `CreatedAt` included, as `c` had it before the call. So when `c` is the pointer that
was stored under that ID before the call (as the service passes it), the record has the `ID`
and `CreatedAt` of the record stored before. -/
theorem C14_update_stores_argument (now : Time) (h : Heap) (m : MemoryStore) (c : Ptr)
    (hok : (MemoryStore.Update now h m c).ret = none) :
    (MemoryStore.GetByID (MemoryStore.Update now h m c).heap (MemoryStore.Update now h m c).store
      (h.cell c).ID).ret = .ok c ∧
    (MemoryStore.Update now h m c).heap.cell c = { h.cell c with UpdatedAt := now } ∧
    (∀ q, (MemoryStore.GetByID h m (h.cell c).ID).ret = .ok q → q = c →
      ((MemoryStore.Update now h m c).heap.cell c).ID = (h.cell q).ID ∧
      ((MemoryStore.Update now h m c).heap.cell c).CreatedAt = (h.cell q).CreatedAt ∧
      ((MemoryStore.Update now h m c).heap.cell c).UpdatedAt = now) := by
  cases hget : mapGet m.contacts (h.cell c).ID with
  | none => simp [MemoryStore.Update, hget] at hok
  | some q0 =>
    cases hv : (h.cell c).Validate with
    | some err => simp [MemoryStore.Update, hget, hv] at hok
    | none =>
      refine ⟨?_, ?_, ?_⟩
      · simp [MemoryStore.Update, hget, hv, MemoryStore.GetByID, Heap.write,
          mapGet_mapSet_self]
      · simp [MemoryStore.Update, hget, hv, Heap.write]
      · intro q _ hq
        subst hq
        simp [MemoryStore.Update, hget, hv, Heap.write]

/-- C14 (amended) applies to the update of contact 1 through its stored pointer: `CreatedAt`
stays 1 and `UpdatedAt` becomes 9. -/
theorem C14_update_stores_argument_witness :
    (MemoryStore.Update 9 adaWorld.heap adaWorld.store 0).ret = none ∧
    (MemoryStore.GetByID (MemoryStore.Update 9 adaWorld.heap adaWorld.store 0).heap
      (MemoryStore.Update 9 adaWorld.heap adaWorld.store 0).store 1).ret = .ok 0 ∧
    (MemoryStore.Update 9 adaWorld.heap adaWorld.store 0).heap.cell 0 =
      ⟨1, "Ada Lovelace", "a@x.com", "", 1, 9⟩ :=
  ⟨by decide,
    (C14_update_stores_argument 9 adaWorld.heap adaWorld.store 0 (by decide)).1,
    (C14_update_stores_argument 9 adaWorld.heap adaWorld.store 0 (by decide)).2.1⟩

/-- C15. `GetByEmail(e)`, of the in-memory store and of the file-backed store, returns a
pointer exactly when some stored contact has `Email` equal to `e` as a string; the pointer is
then a value of the map and its contact has that `Email`; otherwise the result is the
not-found error. The call changes neither the heap nor the store. -/
theorem C15_getByEmail (h : Heap) (m : MemoryStore) (j : JSONStore) (e : String) :
    (((∃ p, (MemoryStore.GetByEmail h m e).ret = .ok p) ↔
        ∃ x ∈ m.contacts, (h.cell x.2).Email = e) ∧
      (∀ p, (MemoryStore.GetByEmail h m e).ret = .ok p →
        (∃ k, (k, p) ∈ m.contacts) ∧ (h.cell p).Email = e) ∧
      ((¬ ∃ x ∈ m.contacts, (h.cell x.2).Email = e) →
        (MemoryStore.GetByEmail h m e).ret = .error .contactNotFound) ∧
      Error.contactNotFound.isNotFound = true ∧
      (MemoryStore.GetByEmail h m e).heap = h ∧ (MemoryStore.GetByEmail h m e).store = m) ∧
    (((∃ p, (JSONStore.GetByEmail h j e).ret = .ok p) ↔
        ∃ x ∈ j.contacts, (h.cell x.2).Email = e) ∧
      (∀ p, (JSONStore.GetByEmail h j e).ret = .ok p →
        (∃ k, (k, p) ∈ j.contacts) ∧ (h.cell p).Email = e) ∧
      ((¬ ∃ x ∈ j.contacts, (h.cell x.2).Email = e) →
        (JSONStore.GetByEmail h j e).ret = .error .contactNotFound) ∧
      (JSONStore.GetByEmail h j e).heap = h ∧ (JSONStore.GetByEmail h j e).store = j) := by
  constructor
  · cases hfind : findByEmail h m.contacts e with
    | some q =>
      obtain ⟨k, hk, hq⟩ := findByEmail_some hfind
      have hex : ∃ x ∈ m.contacts, (h.cell x.2).Email = e := ⟨(k, q), hk, hq⟩
      refine ⟨?_, ?_, fun hn => absurd hex hn, rfl, ?_, ?_⟩
      · simp only [MemoryStore.GetByEmail, hfind, Except.ok.injEq, exists_eq', true_iff]
        exact hex
      · intro p hp
        simp only [MemoryStore.GetByEmail, hfind, Except.ok.injEq] at hp
        subst hp
        exact ⟨⟨k, hk⟩, hq⟩
      · simp [MemoryStore.GetByEmail, hfind]
      · simp [MemoryStore.GetByEmail, hfind]
    | none =>
      have hnex : ¬ ∃ x ∈ m.contacts, (h.cell x.2).Email = e := by
        rintro ⟨x, hx, heq⟩
        exact findByEmail_none hfind x hx heq
      refine ⟨?_, ?_, ?_, rfl, ?_, ?_⟩
      · constructor
        · rintro ⟨p, hp⟩
          simp [MemoryStore.GetByEmail, hfind] at hp
        · exact fun hex => absurd hex hnex
      · intro p hp
        simp [MemoryStore.GetByEmail, hfind] at hp
      · intro _
        simp [MemoryStore.GetByEmail, hfind]
      · simp [MemoryStore.GetByEmail, hfind]
      · simp [MemoryStore.GetByEmail, hfind]
  · cases hfind : findByEmail h j.contacts e with
    | some q =>
      obtain ⟨k, hk, hq⟩ := findByEmail_some hfind
      have hex : ∃ x ∈ j.contacts, (h.cell x.2).Email = e := ⟨(k, q), hk, hq⟩
      refine ⟨?_, ?_, fun hn => absurd hex hn, ?_, ?_⟩
      · simp only [JSONStore.GetByEmail, hfind, Except.ok.injEq, exists_eq', true_iff]
        exact hex
      · intro p hp
        simp only [JSONStore.GetByEmail, hfind, Except.ok.injEq] at hp
        subst hp
        exact ⟨⟨k, hk⟩, hq⟩
      · simp [JSONStore.GetByEmail, hfind]
      · simp [JSONStore.GetByEmail, hfind]
    | none =>
      have hnex : ¬ ∃ x ∈ j.contacts, (h.cell x.2).Email = e := by
        rintro ⟨x, hx, heq⟩
        exact findByEmail_none hfind x hx heq
      refine ⟨?_, ?_, ?_, ?_, ?_⟩
      · constructor
        · rintro ⟨p, hp⟩
          simp [JSONStore.GetByEmail, hfind] at hp
        · exact fun hex => absurd hex hnex
      · intro p hp
        simp [JSONStore.GetByEmail, hfind] at hp
      · intro _
        simp [JSONStore.GetByEmail, hfind]
      · simp [JSONStore.GetByEmail, hfind]
      · simp [JSONStore.GetByEmail, hfind]

/-- C15 applies to the store holding "a@x.com" and "bob@x.com": the lookup of "bob@x.com"
returns Bob's pointer, the lookup of "BOB@x.com" fails. -/
theorem C15_getByEmail_witness :
    (MemoryStore.GetByEmail adaBobWorld.heap adaBobWorld.store "bob@x.com").ret = .ok 1 ∧
    (adaBobWorld.heap.cell 1).Email = "bob@x.com" ∧
    (¬ ∃ x ∈ adaBobWorld.store.contacts, (adaBobWorld.heap.cell x.2).Email = "BOB@x.com") ∧
    (MemoryStore.GetByEmail adaBobWorld.heap adaBobWorld.store "BOB@x.com").ret =
      .error .contactNotFound :=
  ⟨by decide,
    ((C15_getByEmail adaBobWorld.heap adaBobWorld.store adaBobJSON "bob@x.com").1.2.1 1
      (by decide)).2,
    by decide,
    (C15_getByEmail adaBobWorld.heap adaBobWorld.store adaBobJSON "BOB@x.com").1.2.2.1
      (by decide)⟩

/-- C16. `GetAll` returns no error and the list of the values of the map, one element per
entry: its length is the number of entries, it is a permutation of the stored pointers, and
(the keys of a map being distinct) a pointer is in the list exactly when `GetByID` returns it
for some ID. The call changes neither the heap nor the store. -/
theorem C16_getAll (h : Heap) (m : MemoryStore) :
    ∃ ps, (MemoryStore.GetAll h m).ret = .ok ps ∧
      ps.length = m.contacts.length ∧
      ps.Perm (m.contacts.map Prod.snd) ∧
      (ps.map h.cell).Perm (m.contacts.map (fun e => h.cell e.2)) ∧
      ((m.contacts.map Prod.fst).Nodup →
        ∀ p, p ∈ ps ↔ ∃ id, (MemoryStore.GetByID h m id).ret = .ok p) ∧
      (MemoryStore.GetAll h m).heap = h ∧ (MemoryStore.GetAll h m).store = m := by
  refine ⟨m.contacts.map Prod.snd, rfl, by simp, List.Perm.refl _, ?_, ?_, rfl, rfl⟩
  · simp [List.map_map, Function.comp_def]
  · intro hnd p
    constructor
    · intro hp
      obtain ⟨e, he, hep⟩ := List.mem_map.mp hp
      refine ⟨e.1, ?_⟩
      have : mapGet m.contacts e.1 = some p := mapGet_of_mem hnd (by rw [← hep]; exact he)
      simp [MemoryStore.GetByID, this]
    · rintro ⟨id, hid⟩
      cases hg : mapGet m.contacts id with
      | none => simp [MemoryStore.GetByID, hg] at hid
      | some q =>
        simp only [MemoryStore.GetByID, hg, Except.ok.injEq] at hid
        subst hid
        exact List.mem_map.mpr ⟨(id, q), mapGet_mem hg, rfl⟩

/-- C16 applies to the store holding two contacts: `GetAll` returns their two pointers. -/
theorem C16_getAll_witness :
    (adaBobWorld.store.contacts.map Prod.fst).Nodup ∧
    ∃ ps, (MemoryStore.GetAll adaBobWorld.heap adaBobWorld.store).ret = .ok ps ∧
      ps.length = 2 ∧ (1 ∈ ps ↔ ∃ id, (MemoryStore.GetByID adaBobWorld.heap adaBobWorld.store
        id).ret = .ok 1) := by
  obtain ⟨ps, h1, h2, -, -, h5, -⟩ := C16_getAll adaBobWorld.heap adaBobWorld.store
  exact ⟨by decide, ps, h1, h2, h5 (by decide) 1⟩


/-! ## The factory (`factory.go`) -/

/-- An error of `NewJSONStore` is a wrapped error of `load`. -/
theorem NewJSONStore_error {disk : FileContent} {h h1 : Heap} {filename : String} {err : Error}
    (hres : NewJSONStore disk h filename = some (h1, .error err)) :
    ∃ e, err = .wrapLoad e := by
  unfold NewJSONStore at hres
  split at hres
  · simp at hres
  · split at hres
    · next e _ =>
      simp only [Option.some.injEq, Prod.mk.injEq, Except.error.injEq] at hres
      exact ⟨e, hres.2.symm⟩
    · simp at hres

/-- C17. `CreateStorage(tag, path)` returns the unsupported-storage-type error exactly when
`tag` is not one of the values listed by `GetSupportedTypes` ("memory", "json", "gorm"), and
the error then names `tag`. For "memory" it returns, with whatever path, file and database, a
store with no entry and the counter at 1, and leaves the heap as it is. -/
theorem C17_createStorage (disk : FileContent) (db : DBOpen) (h : Heap)
    (storageType filePath : String) :
    ((∃ h1 t, Factory.CreateStorage disk db h storageType filePath =
        some (h1, .error (.unsupportedType t))) ↔
      storageType ∉ Factory.GetSupportedTypes) ∧
    (storageType ∉ Factory.GetSupportedTypes →
      Factory.CreateStorage disk db h storageType filePath =
        some (h, .error (.unsupportedType storageType))) ∧
    Factory.GetSupportedTypes = ["memory", "json", "gorm"] ∧
    Factory.CreateStorage disk db h "memory" filePath = some (h, .ok (.memory NewMemoryStore)) ∧
    NewMemoryStore.contacts = [] ∧ NewMemoryStore.nextID = 1 := by
  have hno : storageType ∉ Factory.GetSupportedTypes →
      Factory.CreateStorage disk db h storageType filePath =
        some (h, .error (.unsupportedType storageType)) := by
    intro hn
    simp only [Factory.GetSupportedTypes, List.mem_cons, List.mem_singleton, not_or,
      List.mem_nil_iff, or_false] at hn
    simp [Factory.CreateStorage, hn.1, hn.2.1, hn.2.2]
  refine ⟨⟨?_, fun hn => ⟨h, storageType, hno hn⟩⟩, hno, rfl, by simp [Factory.CreateStorage],
    rfl, rfl⟩
  rintro ⟨h1, t, hres⟩ hmem
  simp only [Factory.GetSupportedTypes, List.mem_cons, List.mem_singleton, List.mem_nil_iff,
    or_false] at hmem
  rcases hmem with hm | hm | hm
  · subst hm
    simp [Factory.CreateStorage] at hres
  · subst hm
    simp only [Factory.CreateStorage, String.reduceEq, if_false, if_true] at hres
    split at hres
    · simp at hres
    · simp at hres
    · next h2 err hnew =>
      obtain ⟨e, he⟩ := NewJSONStore_error hnew
      subst he
      simp at hres
  · subst hm
    simp only [Factory.CreateStorage, String.reduceEq, if_false, if_true] at hres
    cases db <;> simp [NewGORMStore] at hres

/-- C17 applies to the tag "redis", which `GetSupportedTypes` does not list. -/
theorem C17_createStorage_witness :
    "redis" ∉ Factory.GetSupportedTypes ∧
    Factory.CreateStorage .missing .ready Heap.empty "redis" "contacts.json" =
      some (Heap.empty, .error (.unsupportedType "redis")) :=
  ⟨by decide,
    (C17_createStorage .missing .ready Heap.empty "redis" "contacts.json").2.1 (by decide)⟩

/-! ## The file-backed store (`json.go`) -/

/-- C18 (counterexample). When the file holds a contact whose ID is the largest `uint`,
`NewJSONStore` returns a store whose `nextID` is 0: not one more than the maximum loaded ID,
and not greater than the loaded ID. -/
theorem C18_counterexample :
    (NewJSONStore maxIDFile Heap.empty "contacts.json").map
      (fun r => r.2.toOption.map (fun j => (j.contacts.map Prod.fst, j.nextID))) =
      some (some ([2 ^ 64 - 1], 0)) ∧
    2 ^ 64 - 1 < uintMod ∧ ¬ (2 ^ 64 - 1 < 0) := by
  decide

/-- One call on a file-backed store either assigns the current counter and advances it, or
assigns nothing and keeps the counter. -/
theorem jsonStep_nextID (w : JSONWorld) (call : JSONCall) :
    ((jsonStep w call).2 = some w.store.nextID ∧
      (jsonStep w call).1.store.nextID = (w.store.nextID + 1) % uintMod) ∨
    ((jsonStep w call).2 = none ∧ (jsonStep w call).1.store.nextID = w.store.nextID) := by
  cases call with
  | create now writeOk c =>
    cases hv : (w.heap.cell c).Validate with
    | none =>
      left
      cases writeOk <;>
        simp [jsonStep, JSONStore.Create, JSONStore.save, hv, Res.jsonWorld, Heap.write]
    | some err =>
      right
      simp [jsonStep, JSONStore.Create, hv, Res.jsonWorld]
  | update now writeOk c =>
    right
    refine ⟨rfl, ?_⟩
    simp only [jsonStep, JSONStore.Update, Res.jsonWorld]
    cases mapGet w.store.contacts (w.heap.cell c).ID with
    | none => rfl
    | some p =>
      cases (w.heap.cell c).Validate with
      | some err => rfl
      | none => cases writeOk <;> rfl
  | delete writeOk id =>
    right
    refine ⟨rfl, ?_⟩
    simp only [jsonStep, JSONStore.Delete, Res.jsonWorld]
    cases mapGet w.store.contacts id with
    | none => rfl
    | some p => cases writeOk <;> rfl
  | getByID id =>
    right
    refine ⟨rfl, ?_⟩
    simp only [jsonStep, JSONStore.GetByID, Res.jsonWorld]
    cases mapGet w.store.contacts id <;> rfl
  | getAll => exact Or.inr ⟨rfl, rfl⟩
  | getByEmail email =>
    right
    refine ⟨rfl, ?_⟩
    simp only [jsonStep, JSONStore.GetByEmail, Res.jsonWorld]
    cases findByEmail w.heap w.store.contacts email <;> rfl
  | write p c => exact Or.inr ⟨rfl, rfl⟩
  | rehash entries =>
    right
    refine ⟨rfl, ?_⟩
    simp only [jsonStep]
    split <;> rfl

/-- From a counter `n` that the calls cannot make wrap, the IDs that one store instance
assigns are `n, n + 1, ...` and the counter ends at `n` plus their number. -/
theorem jsonAssignedIDs_from (calls : List JSONCall) :
    ∀ (w : JSONWorld) (n : Nat), w.store.nextID = n → n + calls.length < uintMod →
      jsonAssignedIDs w calls = List.range' n (jsonAssignedIDs w calls).length ∧
      (jsonRun w calls).store.nextID = n + (jsonAssignedIDs w calls).length := by
  induction calls with
  | nil =>
    intro w n hn _
    simp [jsonAssignedIDs, jsonRun, hn]
  | cons call rest ih =>
    intro w n hn hlen
    simp only [List.length_cons] at hlen
    rcases jsonStep_nextID w call with ⟨hid, hnext⟩ | ⟨hid, hnext⟩
    · have hmod : (w.store.nextID + 1) % uintMod = n + 1 := by
        rw [hn]
        exact Nat.mod_eq_of_lt (by omega)
      obtain ⟨h1, h2⟩ := ih (jsonStep w call).1 (n + 1) (hnext.trans hmod) (by omega)
      simp only [jsonAssignedIDs, jsonRun, hid, List.length_cons]
      constructor
      · rw [List.range'_succ, ← h1, hn]
      · rw [h2]
        omega
    · obtain ⟨h1, h2⟩ := ih (jsonStep w call).1 n (hnext.trans hn) (by omega)
      simp only [jsonAssignedIDs, jsonRun, hid]
      exact ⟨h1, h2⟩

/-- C20 (counterexample). IDs 1 and 2 are assigned, contact 2 is deleted, and the store is
rebuilt from its saved file: the rebuilt store has `nextID` 2 and the next `Create` assigns
ID 2 again. -/
theorem C20_counterexample :
    jsonAssignedIDs (JSONWorld.fresh adaBobHeap "contacts.json")
      [.create 1 true 0, .create 2 true 1, .delete true 2] = [1, 2] ∧
    secondDeleted.record 2 = none ∧
    secondDeleted.store.nextID = 3 ∧
    secondDeleted.reopen.map (fun w => w.store.nextID) = some 2 ∧
    secondDeleted.reopen.map (fun w => jsonAssignedIDs w [.create 3 true 1]) = some [2] := by
  decide

/-- C20 (amended). One instance of the file-backed store never assigns an ID twice: from any
state of the store, over any sequence of calls that cannot make the counter wrap (creates,
updates, deletes, reads, client writes, file writes that succeed or fail), the IDs assigned to
contacts are the successive values of the counter and increase strictly, so an ID that was
assigned and then deleted is not assigned to a later contact of that instance. -/
theorem C20_no_reuse_within_instance (w : JSONWorld) (calls : List JSONCall)
    (hlen : w.store.nextID + calls.length < uintMod) :
    jsonAssignedIDs w calls =
      List.range' w.store.nextID (jsonAssignedIDs w calls).length ∧
    (jsonAssignedIDs w calls).Pairwise (fun a b => a < b) ∧
    (jsonRun w calls).store.nextID = w.store.nextID + (jsonAssignedIDs w calls).length := by
  obtain ⟨h1, h2⟩ := jsonAssignedIDs_from calls w w.store.nextID rfl hlen
  refine ⟨h1, ?_, h2⟩
  rw [h1]
  exact List.pairwise_lt_range' _ _

/-- C20 (amended) applies to a run with a failed file write and a delete: the IDs assigned
are 1, 2, 3. -/
theorem C20_no_reuse_within_instance_witness :
    (JSONWorld.fresh adaBobHeap "contacts.json").store.nextID + sampleJSONCalls.length <
      uintMod ∧
    jsonAssignedIDs (JSONWorld.fresh adaBobHeap "contacts.json") sampleJSONCalls = [1, 2, 3] ∧
    (jsonAssignedIDs (JSONWorld.fresh adaBobHeap "contacts.json") sampleJSONCalls).Pairwise
      (fun a b => a < b) := by
  have h := C20_no_reuse_within_instance (JSONWorld.fresh adaBobHeap "contacts.json")
    sampleJSONCalls (by decide)
  have hl : (jsonAssignedIDs (JSONWorld.fresh adaBobHeap "contacts.json")
      sampleJSONCalls).length = 3 := by decide
  rw [hl] at h
  exact ⟨by decide, h.1, by rw [h.1]; decide⟩


/-! ## Loading a file (`JSONStore.load`) -/

theorem mem_mapSet_weak {l : List (Nat × Ptr)} {id : Nat} {p : Ptr} {e : Nat × Ptr}
    (hmem : e ∈ mapSet l id p) : e = (id, p) ∨ e ∈ l := by
  induction l with
  | nil =>
    simp [mapSet] at hmem
    exact Or.inl hmem
  | cons x rest ih =>
    obtain ⟨a, v⟩ := x
    by_cases ha : a = id
    · subst ha
      simp only [mapSet, if_true, List.mem_cons] at hmem
      rcases hmem with h1 | h1
      · exact Or.inl h1
      · exact Or.inr (List.mem_cons_of_mem _ h1)
    · simp only [mapSet, ha, if_false, List.mem_cons] at hmem
      rcases hmem with h1 | h1
      · exact Or.inr (h1 ▸ List.mem_cons_self _ _)
      · rcases ih h1 with h2 | h2
        · exact Or.inl h2
        · exact Or.inr (List.mem_cons_of_mem _ h2)

/-- Decoding allocates above `brk` only: the objects that exist keep their content. -/
theorem unmarshal_frame (es : List (Option Contact)) :
    ∀ (h : Heap), h.brk ≤ (unmarshal h es).1.brk ∧
      ∀ q, q < h.brk → (unmarshal h es).1.cell q = h.cell q := by
  induction es with
  | nil => intro h; exact ⟨Nat.le_refl _, fun _ _ => rfl⟩
  | cons e rest ih =>
    intro h
    cases e with
    | none => exact ih h
    | some c =>
      obtain ⟨h1, h2⟩ := ih (h.new c).1
      constructor
      · exact Nat.le_trans (Nat.le_succ _) h1
      · intro q hq
        have hq1 : q < (h.new c).1.brk := Nat.lt_succ_of_lt hq
        show (unmarshal (h.new c).1 rest).1.cell q = h.cell q
        rw [h2 q hq1]
        exact Function.update_noteq (Nat.ne_of_lt hq) _ _

/-- One round of the loop of `load`. -/
theorem loadLoop_cons (h : Heap) (j : JSONStore) (c : Ptr) (rest : List (Option Ptr)) :
    JSONStore.loadLoop h j (some c :: rest) =
      JSONStore.loadLoop h
        ⟨j.filename, mapSet j.contacts (h.cell c).ID c,
          if (h.cell c).ID ≥ j.nextID then ((h.cell c).ID + 1) % uintMod else j.nextID,
          j.file⟩ rest := by
  rw [JSONStore.loadLoop]
  split <;> rfl

/-- The store that `load` builds from an array of contact objects: under every ID, the last
contact of the array with that ID, or else what the store held before; the counter is
advanced past every ID that is not below it. -/
theorem loadLoop_unmarshal (cs : List Contact) :
    ∀ (h : Heap) (j : JSONStore), (∀ e ∈ j.contacts, e.2 < h.brk) →
      ∃ j1, JSONStore.loadLoop (unmarshal h (cs.map some)).1 j (unmarshal h (cs.map some)).2 =
          some j1 ∧
        (∀ id, (mapGet j1.contacts id).map (unmarshal h (cs.map some)).1.cell =
          match lastWithID cs id with
          | some d => some d
          | none => (mapGet j.contacts id).map h.cell) ∧
        j1.nextID =
          cs.foldl (fun n c => if c.ID ≥ n then (c.ID + 1) % uintMod else n) j.nextID ∧
        ((j.contacts.map Prod.fst).Nodup → (j1.contacts.map Prod.fst).Nodup) ∧
        j1.filename = j.filename ∧ j1.file = j.file := by
  induction cs with
  | nil =>
    intro h j _
    refine ⟨j, rfl, fun id => ?_, rfl, fun hnd => hnd, rfl, rfl⟩
    simp [lastWithID, unmarshal]
  | cons c rest ih =>
    intro h j halloc
    have hframe := unmarshal_frame (rest.map some) (h.new c).1
    have hp : (unmarshal (h.new c).1 (rest.map some)).1.cell h.brk = c := by
      rw [hframe.2 h.brk (Nat.lt_succ_self _)]
      simp [Heap.new]
    have hun : unmarshal h ((c :: rest).map some) =
        ((unmarshal (h.new c).1 (rest.map some)).1,
          some h.brk :: (unmarshal (h.new c).1 (rest.map some)).2) := rfl
    have halloc2 : ∀ e ∈ mapSet j.contacts c.ID h.brk, e.2 < (h.new c).1.brk := by
      intro e he
      rcases mem_mapSet_weak he with h1 | h1
      · subst h1
        exact Nat.lt_succ_self _
      · exact Nat.lt_succ_of_lt (halloc e h1)
    obtain ⟨j1, hj1, hrec, hnext, hnd, hfn, hfile⟩ := ih (h.new c).1
      ⟨j.filename, mapSet j.contacts c.ID h.brk,
        if c.ID ≥ j.nextID then (c.ID + 1) % uintMod else j.nextID, j.file⟩ halloc2
    refine ⟨j1, ?_, ?_, ?_, ?_, hfn, hfile⟩
    · rw [hun, loadLoop_cons, hp]
      exact hj1
    · intro id
      rw [hun]
      simp only
      rw [hrec id]
      simp only [lastWithID]
      cases lastWithID rest id with
      | some d => rfl
      | none =>
        simp only
        by_cases hid : c.ID = id
        · subst hid
          simp [mapGet_mapSet_self, Heap.new]
        · have hid2 : id ≠ c.ID := fun hh => hid hh.symm
          rw [mapGet_mapSet_ne _ _ hid2]
          simp only [hid, if_false]
          cases hg : mapGet j.contacts id with
          | none => rfl
          | some q =>
            have hq : q < h.brk := halloc _ (mapGet_mem hg)
            simp only [Option.map_some', Heap.new, Option.some.injEq]
            exact Function.update_noteq (Nat.ne_of_lt hq) _ _
    · rw [hnext]
      rfl
    · intro hkn
      exact hnd (nodup_keys_mapSet _ _ hkn)

/-- In a map with distinct keys where every contact is stored under its own ID, the last
saved contact with a given ID is the contact stored under that ID. -/
theorem lastWithID_saved (h : Heap) (l : List (Nat × Ptr))
    (hkeys : (l.map Prod.fst).Nodup) (hkeyID : ∀ e ∈ l, (h.cell e.2).ID = e.1) (id : Nat) :
    lastWithID (l.map (fun e => h.cell e.2)) id = (mapGet l id).map h.cell := by
  induction l with
  | nil => rfl
  | cons x rest ih =>
    obtain ⟨k, q⟩ := x
    simp only [List.map_cons, List.nodup_cons] at hkeys
    have hk : (h.cell q).ID = k := hkeyID (k, q) (List.mem_cons_self _ _)
    have ih2 := ih hkeys.2 (fun e he => hkeyID e (List.mem_cons_of_mem _ he))
    simp only [List.map_cons, lastWithID, ih2, hk, mapGet]
    by_cases hkid : k = id
    · subst hkid
      have hnone : mapGet rest k = none := (mapGet_eq_none_iff rest k).mpr hkeys.1
      simp [hnone]
    · simp only [hkid, if_false]
      cases mapGet rest id <;> rfl

/-- Over IDs that are all below the largest `uint`, the counter that `load` computes from a
counter `n ≥ 1` is the larger of `n` and one more than the maximum ID. -/
theorem load_counter (cs : List Contact) (hsmall : ∀ c ∈ cs, c.ID + 1 < uintMod) :
    ∀ n, 1 ≤ n →
      cs.foldl (fun n c => if c.ID ≥ n then (c.ID + 1) % uintMod else n) n =
        max n ((cs.map Contact.ID).foldr max 0 + 1) := by
  induction cs with
  | nil =>
    intro n hn
    simp only [List.foldl_nil, List.map_nil, List.foldr_nil]
    omega
  | cons c rest ih =>
    intro n hn
    have hc : c.ID + 1 < uintMod := hsmall c (List.mem_cons_self _ _)
    have hmod : (c.ID + 1) % uintMod = c.ID + 1 := Nat.mod_eq_of_lt hc
    simp only [List.foldl_cons, List.map_cons, List.foldr_cons, hmod]
    by_cases hge : c.ID ≥ n
    · simp only [hge, if_true]
      rw [ih (fun d hd => hsmall d (List.mem_cons_of_mem _ hd)) (c.ID + 1) (by omega)]
      omega
    · simp only [hge, if_false]
      rw [ih (fun d hd => hsmall d (List.mem_cons_of_mem _ hd)) n hn]
      omega

/-- The maximum of a list of IDs is at least each of them. -/
theorem le_foldr_max (ids : List Nat) : ∀ x ∈ ids, x ≤ ids.foldr max 0 := by
  induction ids with
  | nil => simp
  | cons a rest ih =>
    intro x hx
    simp only [List.foldr_cons]
    rcases List.mem_cons.mp hx with h1 | h1
    · omega
    · have := ih x h1
      omega

/-- C18 (amended). When every ID in the decoded array is below the largest `uint`,
`NewJSONStore` returns a store whose `nextID` is one more than the maximum loaded ID (1 for
an empty array), hence greater than every loaded ID. -/
theorem C18_nextID_after_load (cs : List Contact) (h : Heap) (filename : String)
    (hsmall : ∀ c ∈ cs, c.ID + 1 < uintMod) :
    ∃ h1 j, NewJSONStore (.array (cs.map some)) h filename = some (h1, .ok j) ∧
      j.nextID = (cs.map Contact.ID).foldr max 0 + 1 ∧
      ∀ c ∈ cs, c.ID < j.nextID := by
  obtain ⟨j1, hj1, -, hnext, -, -, -⟩ :=
    loadLoop_unmarshal cs h ⟨filename, [], 1, .array (cs.map some)⟩ (by simp)
  refine ⟨(unmarshal h (cs.map some)).1, j1, ?_, ?_, ?_⟩
  · simp [NewJSONStore, JSONStore.load, hj1]
  · rw [hnext, load_counter cs hsmall 1 (Nat.le_refl _)]
    omega
  · intro c hc
    rw [hnext, load_counter cs hsmall 1 (Nat.le_refl _)]
    have := le_foldr_max (cs.map Contact.ID) c.ID (List.mem_map_of_mem _ hc)
    omega

/-- C18 (amended) applies to a file with IDs 7 and 3, and gives `nextID` 8; for the empty
array it gives 1. -/
theorem C18_nextID_after_load_witness :
    (∀ c ∈ sampleSaved, c.ID + 1 < uintMod) ∧
    (∃ h1 j, NewJSONStore (.array (sampleSaved.map some)) Heap.empty "contacts.json" =
        some (h1, .ok j) ∧ j.nextID = 8) ∧
    (∃ h1 j, NewJSONStore (.array (([] : List Contact).map some)) Heap.empty "contacts.json" =
        some (h1, .ok j) ∧ j.nextID = 1) := by
  obtain ⟨h1, j, hnew, hnext, -⟩ :=
    C18_nextID_after_load sampleSaved Heap.empty "contacts.json" (by decide)
  obtain ⟨h2, j2, hnew2, hnext2, -⟩ :=
    C18_nextID_after_load [] Heap.empty "contacts.json" (by simp)
  exact ⟨by decide, ⟨h1, j, hnew, hnext⟩, ⟨h2, j2, hnew2, hnext2⟩⟩

/-! ## The file round trip (`save`, then `load`) -/

theorem JSONWorld.record_eq (h : Heap) (j : JSONStore) (id : Nat) :
    (⟨h, j⟩ : JSONWorld).record id = (mapGet j.contacts id).map h.cell := by
  simp only [JSONWorld.record, JSONStore.GetByID]
  cases mapGet j.contacts id <;> rfl

/-- C19 (counterexample). `Create` is called twice with the same contact object: the store
holds two entries, and ID 1 leads to a contact whose `ID` field is 2. The file that `save`
wrote holds that contact twice, and the store rebuilt from it has one entry and nothing under
ID 1. -/
theorem C19_counterexample :
    createdTwice.store.file =
      .array ((createdTwice.store.saved createdTwice.heap).map some) ∧
    createdTwice.store.contacts.length = 2 ∧
    (createdTwice.record 1).map Contact.key =
      some (2, "Ada Lovelace", "ada@x.com", "0612345678") ∧
    createdTwice.reopen.map (fun w => w.store.contacts.length) = some 1 ∧
    createdTwice.reopen.map (fun w => (w.record 1).map Contact.key) = some none := by
  decide

/-- C19 (amended). For every state of a file-backed store in which every contact is stored
under its own ID, `NewJSONStore` on the array of contacts that `save` writes returns a store
with the same number of entries that holds, under every ID, a contact with the same ID, name,
e-mail and phone as the original store (and nothing where the original holds nothing). -/
theorem C19_round_trip (h : Heap) (j : JSONStore)
    (hkeys : (j.contacts.map Prod.fst).Nodup)
    (hkeyID : ∀ e ∈ j.contacts, (h.cell e.2).ID = e.1) :
    ∃ h1 j1, NewJSONStore (.array ((j.saved h).map some)) h j.filename = some (h1, .ok j1) ∧
      (∀ id, ((⟨h1, j1⟩ : JSONWorld).record id).map Contact.key =
        ((⟨h, j⟩ : JSONWorld).record id).map Contact.key) ∧
      j1.contacts.length = j.contacts.length := by
  obtain ⟨j1, hj1, hrec, -, hnd, -, -⟩ :=
    loadLoop_unmarshal (j.saved h) h ⟨j.filename, [], 1, .array ((j.saved h).map some)⟩
      (by simp)
  have hrec2 : ∀ id, (mapGet j1.contacts id).map (unmarshal h ((j.saved h).map some)).1.cell =
      (mapGet j.contacts id).map h.cell := by
    intro id
    rw [hrec id]
    have hl := lastWithID_saved h j.contacts hkeys hkeyID id
    simp only [JSONStore.saved]
    rw [hl]
    cases (mapGet j.contacts id).map h.cell <;> rfl
  refine ⟨(unmarshal h ((j.saved h).map some)).1, j1, ?_, ?_, ?_⟩
  · simp [NewJSONStore, JSONStore.load, hj1]
  · intro id
    rw [JSONWorld.record_eq, JSONWorld.record_eq, hrec2 id]
  · have hnd1 : (j1.contacts.map Prod.fst).Nodup := hnd (by simp)
    have hmem : ∀ id, id ∈ j1.contacts.map Prod.fst ↔ id ∈ j.contacts.map Prod.fst := by
      intro id
      have h1 := mapGet_eq_none_iff j1.contacts id
      have h2 := mapGet_eq_none_iff j.contacts id
      have h3 := hrec2 id
      constructor
      · intro hin
        by_contra hout
        rw [h2.mpr hout] at h3
        cases hg : mapGet j1.contacts id with
        | none => exact (h1.mp hg) hin
        | some q => simp [hg] at h3
      · intro hin
        by_contra hout
        rw [h1.mpr hout] at h3
        cases hg : mapGet j.contacts id with
        | none => exact (h2.mp hg) hin
        | some q => simp [hg] at h3
    have hperm := (List.perm_ext_iff_of_nodup hnd1 hkeys).mpr hmem
    have hlen := hperm.length_eq
    simpa using hlen

/-- C19 (amended) applies to the store in which two contacts were created through two
objects: the rebuilt store holds Bob under ID 2. -/
theorem C19_round_trip_witness :
    (adaBobJSONWorld.store.contacts.map Prod.fst).Nodup ∧
    (∀ e ∈ adaBobJSONWorld.store.contacts, (adaBobJSONWorld.heap.cell e.2).ID = e.1) ∧
    ∃ h1 j1, NewJSONStore
        (.array ((adaBobJSONWorld.store.saved adaBobJSONWorld.heap).map some))
        adaBobJSONWorld.heap adaBobJSONWorld.store.filename = some (h1, .ok j1) ∧
      ((⟨h1, j1⟩ : JSONWorld).record 2).map Contact.key =
        some (2, "Bob", "bob@x.com", "") ∧
      j1.contacts.length = 2 := by
  obtain ⟨h1, j1, hnew, hrec, hlen⟩ :=
    C19_round_trip adaBobJSONWorld.heap adaBobJSONWorld.store (by decide) (by decide)
  refine ⟨by decide, by decide, h1, j1, hnew, ?_, hlen⟩
  rw [hrec 2]
  decide


/-! ## When every contact is stored under its own ID -/

/-- Method `save` changes neither the heap nor the map. -/
theorem save_frame (writeOk : Bool) (h : Heap) (j : JSONStore) :
    (JSONStore.save writeOk h j).heap = h ∧
    (JSONStore.save writeOk h j).store.contacts = j.contacts ∧
    (JSONStore.save writeOk h j).store.nextID = j.nextID := by
  cases writeOk <;> exact ⟨rfl, rfl, rfl⟩

/-- `JSONStore.Create` of an object that the store does not hold keeps the keys distinct and
every contact under its own ID. -/
theorem keyID_create (now : Time) (writeOk : Bool) (h : Heap) (j : JSONStore) (c : Ptr)
    (hkeys : (j.contacts.map Prod.fst).Nodup)
    (hkeyID : ∀ e ∈ j.contacts, (h.cell e.2).ID = e.1)
    (hnew : ∀ e ∈ j.contacts, e.2 ≠ c) :
    ((JSONStore.Create now writeOk h j c).store.contacts.map Prod.fst).Nodup ∧
    ∀ e ∈ (JSONStore.Create now writeOk h j c).store.contacts,
      ((JSONStore.Create now writeOk h j c).heap.cell e.2).ID = e.1 := by
  cases hv : (h.cell c).Validate with
  | some err =>
    simp only [JSONStore.Create, hv]
    exact ⟨hkeys, hkeyID⟩
  | none =>
    have hst : (JSONStore.Create now writeOk h j c).heap =
          h.write c { h.cell c with ID := j.nextID, CreatedAt := now, UpdatedAt := now } ∧
        (JSONStore.Create now writeOk h j c).store.contacts =
          mapSet j.contacts j.nextID c := by
      cases writeOk <;> simp [JSONStore.Create, hv, JSONStore.save, Heap.cell_write_self]
    rw [hst.1, hst.2]
    refine ⟨nodup_keys_mapSet _ _ hkeys, ?_⟩
    intro e he
    rcases mem_mapSet hkeys he with h1 | h1
    · subst h1
      simp [Heap.write]
    · have hne : e.2 ≠ c := hnew e h1.1
      simp only [Heap.write, Function.update_noteq hne]
      exact hkeyID e h1.1

/-- `JSONStore.Update` keeps the keys distinct and every contact under its own ID. -/
theorem keyID_update (now : Time) (writeOk : Bool) (h : Heap) (j : JSONStore) (c : Ptr)
    (hkeys : (j.contacts.map Prod.fst).Nodup)
    (hkeyID : ∀ e ∈ j.contacts, (h.cell e.2).ID = e.1) :
    ((JSONStore.Update now writeOk h j c).store.contacts.map Prod.fst).Nodup ∧
    ∀ e ∈ (JSONStore.Update now writeOk h j c).store.contacts,
      ((JSONStore.Update now writeOk h j c).heap.cell e.2).ID = e.1 := by
  cases hget : mapGet j.contacts (h.cell c).ID with
  | none =>
    simp only [JSONStore.Update, hget]
    exact ⟨hkeys, hkeyID⟩
  | some q =>
    cases hv : (h.cell c).Validate with
    | some err =>
      simp only [JSONStore.Update, hget, hv]
      exact ⟨hkeys, hkeyID⟩
    | none =>
      have hst : (JSONStore.Update now writeOk h j c).heap =
            h.write c { h.cell c with UpdatedAt := now } ∧
          (JSONStore.Update now writeOk h j c).store.contacts =
            mapSet j.contacts (h.cell c).ID c := by
        cases writeOk <;>
          simp [JSONStore.Update, hget, hv, JSONStore.save, Heap.cell_write_self]
      rw [hst.1, hst.2]
      have hID : ∀ p, ((h.write c { h.cell c with UpdatedAt := now }).cell p).ID =
          (h.cell p).ID := by
        intro p
        by_cases hp : p = c
        · subst hp
          simp [Heap.write]
        · simp [Heap.write, Function.update_noteq hp]
      refine ⟨nodup_keys_mapSet _ _ hkeys, ?_⟩
      intro e he
      rw [hID]
      rcases mem_mapSet hkeys he with h1 | h1
      · subst h1
        rfl
      · exact hkeyID e h1.1

/-- `JSONStore.Delete` keeps the keys distinct and every contact under its own ID. -/
theorem keyID_delete (writeOk : Bool) (h : Heap) (j : JSONStore) (id : Nat)
    (hkeys : (j.contacts.map Prod.fst).Nodup)
    (hkeyID : ∀ e ∈ j.contacts, (h.cell e.2).ID = e.1) :
    ((JSONStore.Delete writeOk h j id).store.contacts.map Prod.fst).Nodup ∧
    ∀ e ∈ (JSONStore.Delete writeOk h j id).store.contacts,
      ((JSONStore.Delete writeOk h j id).heap.cell e.2).ID = e.1 := by
  cases hget : mapGet j.contacts id with
  | none =>
    simp only [JSONStore.Delete, hget]
    exact ⟨hkeys, hkeyID⟩
  | some q =>
    have hst : (JSONStore.Delete writeOk h j id).heap = h ∧
        (JSONStore.Delete writeOk h j id).store.contacts = mapDelete j.contacts id := by
      cases writeOk <;> simp [JSONStore.Delete, hget, JSONStore.save]
    rw [hst.1, hst.2]
    constructor
    · have hsub : (mapDelete j.contacts id).Sublist j.contacts := List.filter_sublist _
      exact (hsub.map Prod.fst).nodup hkeys
    · intro e he
      exact hkeyID e (mem_mapDelete.mp he).1


/-! ## Raw and normalised validation -/

/-- C21 (the code at the failing input). A contact with a valid name and e-mail and the phone
" 0612345678" is refused by `MemoryStore.Create` (`Validate` on the raw fields) and accepted
by the hook `BeforeCreate`; the same holds for a phone made of spaces. -/
theorem C21_backends_disagree :
    spacedPhone.Validate = some .phonePrefix ∧
    (MemoryStore.Create 1 (Heap.empty.new spacedPhone).1 NewMemoryStore 0).ret =
      some .phonePrefix ∧
    spacedPhone.BeforeCreate.2 = none ∧
    (MemoryStore.Create 1 (Heap.empty.new blankPhone).1 NewMemoryStore 0).ret =
      some .phonePrefix ∧
    blankPhone.BeforeCreate.2 = none := by
  decide

/-- C22 (the code at the failing input). With a valid name and e-mail, a phone made of three
spaces is empty after trimming and `Validate` refuses it; the phone " 0612345678" starts with
"06" after trimming and `Validate` refuses it. -/
theorem C22_untrimmed_phone_is_refused :
    TrimSpace blankPhone.Name ≠ "" ∧ TrimSpace blankPhone.Email ≠ "" ∧
    Contains blankPhone.Email "@" = true ∧
    TrimSpace blankPhone.Phone = "" ∧
    blankPhone.Validate = some .phonePrefix ∧
    HasPrefix (TrimSpace spacedPhone.Phone) "06" = true ∧
    spacedPhone.Validate = some .phonePrefix := by
  decide

/-- C23 (the code at the failing input). `GORMStore.Delete` and `GORMStore.Update` return
what the database library returns, whatever it is. On an empty table, with the library
behaving as documented, `GORMStore.Delete(7)` returns no error, where `MemoryStore.Delete(7)`
on an empty store returns "contact not found"; and `GORMStore.Update` of a contact with ID 7
returns no error and inserts a row. -/
theorem C23_gorm_missing_row :
    (∀ (db : Engine) (t : Table) (id : Nat), GORMStore.Delete db t id = db.Delete t id) ∧
    (∀ (db : Engine) (t : Table) (c : Contact), GORMStore.Update db t c = db.Save t c) ∧
    GORMStore.Delete (gormEngine 5) [] 7 = ([], none) ∧
    (MemoryStore.Delete Heap.empty NewMemoryStore 7).ret = some .contactNotFound ∧
    GORMStore.Update (gormEngine 5) [] unsavedSeven =
      ([⟨7, "Ada Lovelace", "a@x.com", "", 1, 5⟩], ⟨7, "Ada Lovelace", "a@x.com", "", 1, 5⟩,
        none) ∧
    (MemoryStore.Update 5 (Heap.empty.new unsavedSeven).1 NewMemoryStore 0).ret =
      some .contactNotFound := by
  refine ⟨fun _ _ _ => rfl, fun _ _ _ => rfl, ?_⟩
  decide

/-- C27 (the code at the failing input). When the file is `[null]`, the loop of `load` reads
`c.ID` through a nil pointer: `load` and `NewJSONStore` return neither a store nor an error,
the process panics. -/
theorem C27_null_entry_panics :
    unmarshal Heap.empty [none] = (Heap.empty, [none]) ∧
    JSONStore.load Heap.empty ⟨"contacts.json", [], 1, nullFile⟩ = none ∧
    NewJSONStore nullFile Heap.empty "contacts.json" = none := by
  refine ⟨rfl, rfl, rfl⟩

/-- C30. `NewCRM()` is a `CRM` with no entry and `nextID` 1, so the lookup of any ID in it
reports absence; `NewMemoryStore()` has no entry and `nextID` 1, and `GetByID` and `GetAll`
on it find nothing. -/
theorem C30_fresh_stores (h : Heap) (id : Int) (k : Nat) :
    NewCRM.contacts = [] ∧ NewCRM.contacts.length = 0 ∧ NewCRM.nextID = 1 ∧
    crmGet NewCRM.contacts id = none ∧ crmGet NewCRM.contacts 999 = none ∧
    NewMemoryStore.contacts = [] ∧ NewMemoryStore.contacts.length = 0 ∧
    NewMemoryStore.nextID = 1 ∧
    (MemoryStore.GetByID h NewMemoryStore k).ret = .error (.noContactWithID k) ∧
    (MemoryStore.GetAll h NewMemoryStore).ret = .ok [] :=
  ⟨rfl, rfl, rfl, rfl, rfl, rfl, rfl, rfl, rfl, rfl⟩


/-! ## Readers during `UpdateContact` -/

/-- The last of the heaps that `UpdateContact` goes through is the heap it returns with. -/
theorem unlockedHeaps_last {σ : Type} (repo : Repository σ) (h : Heap) (s : σ) (id : Nat)
    (name email phone : String)
    (hne : service.UpdateContact.unlockedHeaps repo h s id name email phone ≠ []) :
    (service.UpdateContact.unlockedHeaps repo h s id name email phone).getLast? =
      some (service.UpdateContact repo h s id name email phone).heap := by
  unfold service.UpdateContact.unlockedHeaps at hne ⊢
  unfold service.UpdateContact
  cases hg : (repo.GetByID h s id).ret with
  | error err => simp [hg] at hne
  | ok contact =>
    simp only [hg] at hne ⊢
    by_cases hc : (emailConflict repo (repo.GetByID h s id).heap (repo.GetByID h s id).store
        contact id email).ret = true
    · simp [hc] at hne
    · simp only [hc, Bool.false_eq_true, if_false, Heap.write_write, Heap.cell_write_self,
        List.getLast?_cons_cons, List.getLast?_singleton, Option.some.injEq]
      split <;> rfl

/-- C24 (the code at the failing input). `UpdateContact(1, "Eve", "eve@y.org", "0712345678")`
succeeds on the store holding Ada. Between its calls of the store, while no lock is held, the
record that `GetByID(1)` leads to has the new name with the old e-mail and phone, then the new
name and e-mail with the old phone: records that are neither the one before the call nor the
one after it. -/
theorem C24_reader_sees_mixed_record :
    (service.UpdateContact (memoryRepo 2) adaWorld.heap adaWorld.store 1 "Eve" "eve@y.org"
      "0712345678").ret = .ok 0 ∧
    (service.UpdateContact (memoryRepo 2) adaWorld.heap adaWorld.store 1 "Eve" "eve@y.org"
      "0712345678").store.contacts = adaWorld.store.contacts ∧
    adaWorld.record 1 = some ⟨1, "Ada Lovelace", "a@x.com", "", 1, 1⟩ ∧
    (service.UpdateContact (memoryRepo 2) adaWorld.heap adaWorld.store 1 "Eve" "eve@y.org"
      "0712345678").world.record 1 = some ⟨1, "Eve", "eve@y.org", "0712345678", 1, 2⟩ ∧
    (service.UpdateContact.unlockedHeaps (memoryRepo 2) adaWorld.heap adaWorld.store 1 "Eve"
      "eve@y.org" "0712345678").map (fun h => (World.mk h adaWorld.store).record 1) =
      [some ⟨1, "Eve", "a@x.com", "", 1, 1⟩, some ⟨1, "Eve", "eve@y.org", "", 1, 1⟩,
        some ⟨1, "Eve", "eve@y.org", "0712345678", 1, 1⟩,
        some ⟨1, "Eve", "eve@y.org", "0712345678", 1, 2⟩] := by
  decide

/-! ## The hooks `BeforeCreate` and `BeforeUpdate` -/

/-- One store call of a disciplined client keeps the keys distinct and every contact under its
own ID. -/
theorem keyID_storeStep (w : World) (call : StoreCall)
    (hd : disciplined w [call] = true)
    (hkeys : (w.store.contacts.map Prod.fst).Nodup)
    (hkeyID : ∀ e ∈ w.store.contacts, (w.heap.cell e.2).ID = e.1) :
    ((storeStep w call).1.store.contacts.map Prod.fst).Nodup ∧
    ∀ e ∈ (storeStep w call).1.store.contacts,
      ((storeStep w call).1.heap.cell e.2).ID = e.1 := by
  obtain ⟨h, m⟩ := w
  simp only at hkeys hkeyID
  cases call with
  | create now c =>
    simp only [disciplined, Bool.and_true, List.all_eq_true, decide_eq_true_eq] at hd
    cases hv : (h.cell c).Validate with
    | some err =>
      simp only [storeStep, MemoryStore.Create, hv, Res.world]
      exact ⟨hkeys, hkeyID⟩
    | none =>
      simp only [storeStep, MemoryStore.Create, hv, Res.world, Heap.cell_write_self]
      refine ⟨nodup_keys_mapSet _ _ hkeys, ?_⟩
      intro e he
      rcases mem_mapSet hkeys he with h1 | h1
      · subst h1
        simp [Heap.write]
      · have hne : e.2 ≠ c := hd e h1.1
        simp only [Heap.write, Function.update_noteq hne]
        exact hkeyID e h1.1
  | update now c =>
    cases hget : mapGet m.contacts (h.cell c).ID with
    | none =>
      simp only [storeStep, MemoryStore.Update, hget, Res.world]
      exact ⟨hkeys, hkeyID⟩
    | some q =>
      cases hv : (h.cell c).Validate with
      | some err =>
        simp only [storeStep, MemoryStore.Update, hget, hv, Res.world]
        exact ⟨hkeys, hkeyID⟩
      | none =>
        simp only [storeStep, MemoryStore.Update, hget, hv, Res.world, Heap.cell_write_self]
        have hID : ∀ p, ((h.write c { h.cell c with UpdatedAt := now }).cell p).ID =
            (h.cell p).ID := by
          intro p
          by_cases hp : p = c
          · subst hp
            simp [Heap.write]
          · simp [Heap.write, Function.update_noteq hp]
        refine ⟨nodup_keys_mapSet _ _ hkeys, ?_⟩
        intro e he
        rw [hID]
        rcases mem_mapSet hkeys he with h1 | h1
        · subst h1
          rfl
        · exact hkeyID e h1.1
  | delete id =>
    cases hget : mapGet m.contacts id with
    | none =>
      simp only [storeStep, MemoryStore.Delete, hget, Res.world]
      exact ⟨hkeys, hkeyID⟩
    | some q =>
      simp only [storeStep, MemoryStore.Delete, hget, Res.world]
      constructor
      · have hsub : (mapDelete m.contacts id).Sublist m.contacts := List.filter_sublist _
        exact (hsub.map Prod.fst).nodup hkeys
      · intro e he
        exact hkeyID e (mem_mapDelete.mp he).1
  | getByID id =>
    simp only [storeStep, MemoryStore.GetByID, Res.world]
    cases mapGet m.contacts id <;> exact ⟨hkeys, hkeyID⟩
  | getAll => exact ⟨hkeys, hkeyID⟩
  | getByEmail email =>
    simp only [storeStep, MemoryStore.GetByEmail, Res.world]
    cases findByEmail h m.contacts email <;> exact ⟨hkeys, hkeyID⟩
  | write p c =>
    simp only [disciplined, Bool.and_true, Bool.or_eq_true, List.all_eq_true,
      decide_eq_true_eq] at hd
    simp only [storeStep]
    refine ⟨hkeys, ?_⟩
    intro e he
    by_cases hp : e.2 = p
    · rcases hd with h1 | h1
      · exact absurd hp (h1 e he)
      · have := hkeyID e he
        rw [hp] at this ⊢
        simp only [Heap.write, Function.update_same]
        rw [h1]
        exact this
    · simp only [Heap.write, Function.update_noteq hp]
      exact hkeyID e he
  | rehash entries =>
    simp only [storeStep]
    split
    · next hperm =>
      exact ⟨(hperm.map Prod.fst).nodup_iff.mpr hkeys,
        fun e he => hkeyID e (hperm.mem_iff.mp he)⟩
    · exact ⟨hkeys, hkeyID⟩

theorem disciplined_cons (w : World) (call : StoreCall) (rest : List StoreCall) :
    disciplined w (call :: rest) = true ↔
      disciplined w [call] = true ∧ disciplined (storeStep w call).1 rest = true := by
  simp only [disciplined, Bool.and_true, Bool.and_eq_true]

/-- Every run of a disciplined client keeps the keys distinct and every contact under its own
ID. -/
theorem keyID_storeRun (calls : List StoreCall) :
    ∀ (w : World), disciplined w calls = true →
      (w.store.contacts.map Prod.fst).Nodup →
      (∀ e ∈ w.store.contacts, (w.heap.cell e.2).ID = e.1) →
      ((storeRun w calls).store.contacts.map Prod.fst).Nodup ∧
      ∀ e ∈ (storeRun w calls).store.contacts, ((storeRun w calls).heap.cell e.2).ID = e.1 := by
  induction calls with
  | nil => exact fun w _ hk hi => ⟨hk, hi⟩
  | cons call rest ih =>
    intro w hd hk hi
    obtain ⟨hd1, hd2⟩ := (disciplined_cons w call rest).mp hd
    obtain ⟨hk2, hi2⟩ := keyID_storeStep w call hd1 hk hi
    exact ih (storeStep w call).1 hd2 hk2 hi2

theorem mem_crmSet {l : List (Int × CRMContact)} {id : Int} {c : CRMContact}
    {e : Int × CRMContact} (hmem : e ∈ crmSet l id c) : e = (id, c) ∨ e ∈ l := by
  induction l with
  | nil =>
    simp [crmSet] at hmem
    exact Or.inl hmem
  | cons x rest ih =>
    obtain ⟨a, v⟩ := x
    by_cases ha : a = id
    · subst ha
      simp only [crmSet, if_true, List.mem_cons] at hmem
      rcases hmem with h1 | h1
      · exact Or.inl h1
      · exact Or.inr (List.mem_cons_of_mem _ h1)
    · simp only [crmSet, ha, if_false, List.mem_cons] at hmem
      rcases hmem with h1 | h1
      · exact Or.inr (h1 ▸ List.mem_cons_self _ _)
      · rcases ih h1 with h2 | h2
        · exact Or.inl h2
        · exact Or.inr (List.mem_cons_of_mem _ h2)

theorem nodup_keys_crmSet {l : List (Int × CRMContact)} (id : Int) (c : CRMContact)
    (hnd : (l.map Prod.fst).Nodup) : ((crmSet l id c).map Prod.fst).Nodup := by
  induction l with
  | nil => simp [crmSet]
  | cons x rest ih =>
    obtain ⟨a, v⟩ := x
    have hnd2 := hnd
    simp only [List.map_cons, List.nodup_cons] at hnd2
    by_cases ha : a = id
    · subst ha
      simpa [crmSet] using hnd
    · simp only [crmSet, ha, if_false, List.map_cons, List.nodup_cons]
      refine ⟨fun hin => ?_, ih hnd2.2⟩
      obtain ⟨e, he, hk⟩ := List.mem_map.mp hin
      rcases mem_crmSet he with h1 | h1
      · rw [h1] at hk
        exact ha hk.symm
      · exact hnd2.1 (hk ▸ List.mem_map_of_mem Prod.fst h1)

/-- Storing a contact under its own ID keeps the keys distinct and every contact under its
own ID. -/
theorem keyID_crmSet {l : List (Int × CRMContact)} (id : Int) (c : CRMContact)
    (hc : c.ID = id) (hkeys : (l.map Prod.fst).Nodup) (hkeyID : ∀ e ∈ l, e.2.ID = e.1) :
    ((crmSet l id c).map Prod.fst).Nodup ∧ ∀ e ∈ crmSet l id c, e.2.ID = e.1 := by
  refine ⟨nodup_keys_crmSet id c hkeys, ?_⟩
  intro e he
  rcases mem_crmSet he with h1 | h1
  · subst h1
    exact hc
  · exact hkeyID e h1

/-- One call of the menu keeps the keys distinct and every contact under its own ID. -/
theorem keyID_crmStep (crm : CRM) (call : CRMCall)
    (hkeys : (crm.contacts.map Prod.fst).Nodup) (hkeyID : ∀ e ∈ crm.contacts, e.2.ID = e.1) :
    ((crmStep crm call).contacts.map Prod.fst).Nodup ∧
    ∀ e ∈ (crmStep crm call).contacts, e.2.ID = e.1 := by
  cases call with
  | add nameLine emailLine =>
    simp only [crmStep, CRM.addContact]
    cases nameLine with
    | none => exact ⟨hkeys, hkeyID⟩
    | some l1 =>
      simp only
      split
      · exact ⟨hkeys, hkeyID⟩
      · cases emailLine with
        | none => exact ⟨hkeys, hkeyID⟩
        | some l2 =>
          simp only
          split
          · exact ⟨hkeys, hkeyID⟩
          · split
            · exact ⟨hkeys, hkeyID⟩
            · exact keyID_crmSet _ _ rfl hkeys hkeyID
  | update id nameLine emailLine =>
    simp only [crmStep, CRM.updateContact]
    cases id with
    | none => exact ⟨hkeys, hkeyID⟩
    | some id =>
      simp only
      cases crmGet crm.contacts id with
      | none => exact ⟨hkeys, hkeyID⟩
      | some contact =>
        simp only
        cases nameLine with
        | none => exact ⟨hkeys, hkeyID⟩
        | some l1 =>
          cases emailLine with
          | none => exact ⟨hkeys, hkeyID⟩
          | some l2 =>
            simp only
            split
            · exact ⟨hkeys, hkeyID⟩
            · exact keyID_crmSet _ _ rfl hkeys hkeyID
  | delete id confirmed =>
    simp only [crmStep, CRM.deleteContact]
    cases id with
    | none => exact ⟨hkeys, hkeyID⟩
    | some id =>
      simp only
      cases crmGet crm.contacts id with
      | none => exact ⟨hkeys, hkeyID⟩
      | some contact =>
        simp only
        cases confirmed with
        | false => exact ⟨hkeys, hkeyID⟩
        | true =>
          simp only [if_true]
          constructor
          · have hsub : (crmDelete crm.contacts id).Sublist crm.contacts :=
              List.filter_sublist _
            exact (hsub.map Prod.fst).nodup hkeys
          · intro e he
            exact hkeyID e (List.mem_filter.mp he).1

/-- Every run of the menu keeps the keys distinct and every contact under its own ID. -/
theorem keyID_crmRun (calls : List CRMCall) :
    ∀ (crm : CRM), (crm.contacts.map Prod.fst).Nodup → (∀ e ∈ crm.contacts, e.2.ID = e.1) →
      ((crmRun crm calls).contacts.map Prod.fst).Nodup ∧
      ∀ e ∈ (crmRun crm calls).contacts, e.2.ID = e.1 := by
  induction calls with
  | nil => exact fun crm hk hi => ⟨hk, hi⟩
  | cons call rest ih =>
    intro crm hk hi
    obtain ⟨hk2, hi2⟩ := keyID_crmStep crm call hk hi
    exact ih (crmStep crm call) hk2 hi2

/-- C29 (counterexample). `Create` is called twice with the same contact object on a fresh
in-memory store: the map then holds that object under keys 1 and 2, and its `ID` is 2. -/
theorem C29_counterexample :
    (storeRun (World.fresh adaHeap) [.create 1 0, .create 2 0]).store.contacts =
      [(1, 0), (2, 0)] ∧
    ((storeRun (World.fresh adaHeap) [.create 1 0, .create 2 0]).record 1).map Contact.ID =
      some 2 ∧
    (1 : Nat) ≠ 2 := by
  decide

/-- C29 (amended). In every state of the in-memory store reached from a fresh store by calls
in which `Create` is never given an object the store already holds and no client write changes
the `ID` of a stored object, and in every state of the `CRM` of the first program reached
from `NewCRM()` through its menu, the keys of the map are distinct and every entry's key is
the `ID` of the contact stored under it. -/
theorem C29_key_is_ID (h : Heap) (calls : List StoreCall) (crmCalls : List CRMCall)
    (hd : disciplined (World.fresh h) calls = true) :
    (((storeRun (World.fresh h) calls).store.contacts.map Prod.fst).Nodup ∧
      ∀ e ∈ (storeRun (World.fresh h) calls).store.contacts,
        ((storeRun (World.fresh h) calls).heap.cell e.2).ID = e.1) ∧
    (((crmRun NewCRM crmCalls).contacts.map Prod.fst).Nodup ∧
      ∀ e ∈ (crmRun NewCRM crmCalls).contacts, e.2.ID = e.1) :=
  ⟨keyID_storeRun calls (World.fresh h) hd (by simp [World.fresh, NewMemoryStore])
      (by simp [World.fresh, NewMemoryStore]),
    keyID_crmRun crmCalls NewCRM (by simp [NewCRM]) (by simp [NewCRM])⟩

/-- C29 (amended) applies to the run `sampleCalls` of the store, in which the object at
address 0 is passed to `Create` again only after it was deleted, and to a run of the menu. -/
theorem C29_key_is_ID_witness :
    disciplined (World.fresh adaHeap) sampleCalls = true ∧
    (storeRun (World.fresh adaHeap) sampleCalls).store.contacts = [(2, 0), (3, 1)] ∧
    (∀ e ∈ (storeRun (World.fresh adaHeap) sampleCalls).store.contacts,
      ((storeRun (World.fresh adaHeap) sampleCalls).heap.cell e.2).ID = e.1) ∧
    (crmRun NewCRM sampleCRMCalls).contacts = [(1, ⟨1, "Alice B", "alice@test.com"⟩)] ∧
    (∀ e ∈ (crmRun NewCRM sampleCRMCalls).contacts, e.2.ID = e.1) :=
  ⟨by decide, by decide,
    (C29_key_is_ID adaHeap sampleCalls sampleCRMCalls (by decide)).1.2, by decide,
    (C29_key_is_ID adaHeap sampleCalls sampleCRMCalls (by decide)).2.2⟩


/-! ## The two stores side by side -/

end MiniCRM
